import Mathlib

/-!
Verification of the webhook-utility, collaboration and error-reporting logic of
the Sim repository (`apps/sim`), as a shallow embedding in Lean 4.

JavaScript strings are modelled as lists of UTF-16 code units (`JSString`);
two JavaScript strings are equal exactly when their code-unit lists are equal.
JavaScript numbers that the code only ever uses as integers (timestamps,
cursors, counters) are modelled as `Int`/`Nat`; `NaN` produced by
`Number.parseInt` is modelled by `Option Int` (`none` = `NaN`), and every
comparison against `NaN` is `false`, as in JavaScript.

The HMAC-SHA256 primitive (`crypto.subtle` / node `crypto`) is platform code,
not part of this repository; the validators are therefore parameterised over
the digest function.  All control flow around the digest is embedded from the
source.
-/

/-- A JavaScript string, as its list of UTF-16 code units. -/
abbrev JSString := List Nat

/-- Code units of an ASCII Lean string, used to embed string literals. -/
def cu (s : String) : JSString := s.data.map Char.toNat

/-- JavaScript whitespace characters skipped by `Number.parseInt` (the common
ASCII ones plus NBSP and the BOM). -/
def isJsSpace (c : Nat) : Bool :=
  c = 32 || c = 9 || c = 10 || c = 11 || c = 12 || c = 13 || c = 160 || c = 65279

/-- Decimal digit code unit. -/
def isDigitCU (c : Nat) : Bool := 48 ≤ c && c ≤ 57

/-- Hexadecimal digit code unit. -/
def isHexDigitCU (c : Nat) : Bool :=
  isDigitCU c || (97 ≤ c && c ≤ 102) || (65 ≤ c && c ≤ 70)

/-- Numeric value of a hexadecimal digit code unit. -/
def hexVal (c : Nat) : Nat :=
  if 97 ≤ c then c - 87 else if 65 ≤ c then c - 55 else c - 48

/-- Value of a run of decimal digit code units. -/
def decDigitsVal (l : List Nat) : Nat := l.foldl (fun a c => 10 * a + (c - 48)) 0

/-- Value of a run of hexadecimal digit code units. -/
def hexDigitsVal (l : List Nat) : Nat := l.foldl (fun a c => 16 * a + hexVal c) 0

/-- Embedding of JavaScript `Number.parseInt(s)` (radix auto-detected):
skip whitespace, optional sign, either a `0x`/`0X` hexadecimal run or a
decimal digit run; `none` models `NaN` (no digits). -/
def jsParseInt (s : JSString) : Option Int :=
  let t := s.dropWhile isJsSpace
  let signed : Bool × JSString :=
    match t with
    | 43 :: r => (false, r)
    | 45 :: r => (true, r)
    | _ => (false, t)
  let core : Option Nat :=
    match signed.2 with
    | 48 :: 120 :: r =>
        let d := r.takeWhile isHexDigitCU
        if d.isEmpty then none else some (hexDigitsVal d)
    | 48 :: 88 :: r =>
        let d := r.takeWhile isHexDigitCU
        if d.isEmpty then none else some (hexDigitsVal d)
    | u =>
        let d := u.takeWhile isDigitCU
        if d.isEmpty then none else some (decDigitsVal d)
  core.map (fun n => if signed.1 then -(n : Int) else (n : Int))

/-- The constant-time comparison loop shared by `validateSlackSignature`
(utils.ts lines 125-135) and `validateMicrosoftTeamsSignature` (lines
674-684): reject on differing lengths, otherwise OR together the XOR of each
code-unit pair and accept iff the accumulator is zero. -/
def ctCompare (computed provided : JSString) : Bool :=
  if computed.length ≠ provided.length then false
  else (List.zipWith (fun a b => a ^^^ b) computed provided).foldl
      (fun acc x => acc ||| x) 0 == 0

/-- Plain string equality, the behaviour the spec claims the constant-time
comparison refines. -/
def plainEqual (computed provided : JSString) : Bool := computed == provided

lemma nat_lor_eq_zero (a b : Nat) : a ||| b = 0 ↔ a = 0 ∧ b = 0 := by
  constructor
  · intro h
    constructor <;>
      (apply Nat.eq_of_testBit_eq; intro k;
       have hk := congrArg (fun n => Nat.testBit n k) h
       simp only [Nat.testBit_lor, Nat.zero_testBit, Bool.or_eq_false_iff] at hk
       simp [hk.1, hk.2, Nat.zero_testBit])
  · rintro ⟨rfl, rfl⟩; rfl

lemma foldl_lor_eq_zero (l : List Nat) (acc : Nat) :
    l.foldl (fun a x => a ||| x) acc = 0 ↔ acc = 0 ∧ ∀ x ∈ l, x = 0 := by
  induction l generalizing acc with
  | nil => simp
  | cons y ys ih =>
      simp only [List.foldl_cons, ih, nat_lor_eq_zero, List.mem_cons]
      constructor
      · rintro ⟨⟨h1, h2⟩, h3⟩
        exact ⟨h1, fun x hx => hx.elim (fun hx => hx ▸ h2) (h3 x)⟩
      · rintro ⟨h1, h2⟩
        exact ⟨⟨h1, h2 y (Or.inl rfl)⟩, fun x hx => h2 x (Or.inr hx)⟩

lemma zip_xor_all_zero : ∀ (a b : JSString), a.length = b.length →
    ((∀ x ∈ List.zipWith (fun u v => u ^^^ v) a b, x = 0) ↔ a = b)
  | [], [], _ => by simp
  | [], _ :: _, h => by simp at h
  | _ :: _, [], h => by simp at h
  | x :: xs, y :: ys, h => by
      simp only [List.length_cons, Nat.succ.injEq] at h
      have ih := zip_xor_all_zero xs ys h
      simp only [List.zipWith_cons_cons, List.mem_cons, List.cons.injEq]
      constructor
      · intro hall
        exact ⟨Nat.xor_eq_zero.mp (hall _ (Or.inl rfl)),
          ih.mp fun z hz => hall z (Or.inr hz)⟩
      · rintro ⟨rfl, rfl⟩ z hz
        rcases hz with hz | hz
        · simp [hz]
        · exact ih.mpr rfl z hz

lemma ctCompare_eq_iff (a b : JSString) : ctCompare a b = true ↔ a = b := by
  unfold ctCompare
  by_cases h : a.length = b.length
  · rw [if_neg (by simpa using h), beq_iff_eq, foldl_lor_eq_zero]
    constructor
    · rintro ⟨-, hall⟩
      exact (zip_xor_all_zero a b h).mp hall
    · intro he
      exact ⟨rfl, (zip_xor_all_zero a b h).mpr he⟩
  · rw [if_pos (by simpa using h)]
    simp only [Bool.false_eq_true, false_iff]
    intro he
    exact h (he ▸ rfl)

/-- C5: the constant-time signature comparison used in both
`validateSlackSignature` and `validateMicrosoftTeamsSignature` — reject if
the two strings differ in length, otherwise OR together the XOR of each
character pair and accept iff the accumulator is zero — is equivalent to
plain string equality: for every pair of strings it returns true exactly
when the computed signature equals the provided signature. -/
theorem ctCompare_equiv_plain_equality (computed provided : JSString) :
    ctCompare computed provided = plainEqual computed provided := by
  have h := ctCompare_eq_iff computed provided
  unfold plainEqual
  by_cases he : computed = provided
  · rw [h.mpr he, he]
    simp
  · have hc : ctCompare computed provided ≠ true := fun hc => he (h.mp hc)
    simp only [Bool.not_eq_true] at hc
    simp [hc, beq_eq_false_iff_ne.mpr he]

/-- The timestamp replay-window test of `validateSlackSignature` (utils.ts
lines 96-100): `Math.abs(currentTime - Number.parseInt(timestamp)) > 300`.
When `Number.parseInt` yields `NaN` the JavaScript comparison `NaN > 300` is
false, so the guard does not reject; `none` therefore maps to `false`. -/
def slackTimestampTooOld (now : Int) (ts : JSString) : Bool :=
  match jsParseInt ts with
  | some t => decide (300 < (now - t).natAbs)
  | none => false

/-- Embedding of `validateSlackSignature` (utils.ts lines 84-140).
`hmacHex secret msg` abstracts the platform primitive: the lowercase hex
encoding of HMAC-SHA256 keyed by `secret` over `msg` (lines 107-120); `now`
is `Math.floor(Date.now() / 1000)`.  All remaining control flow is embedded
from the source: the emptiness guard, the replay-window guard, the base
string `v0:{timestamp}:{body}`, the `v0=` prefix, and the constant-time
comparison. -/
def validateSlackSignature (hmacHex : JSString → JSString → JSString)
    (now : Int) (signingSecret sig timestamp body : JSString) : Bool :=
  if signingSecret.isEmpty || sig.isEmpty || timestamp.isEmpty || body.isEmpty then
    false
  else if slackTimestampTooOld now timestamp then false
  else
    let baseString := cu "v0:" ++ timestamp ++ cu ":" ++ body
    let computedSignature := cu "v0=" ++ hmacHex signingSecret baseString
    ctCompare computedSignature sig

/-- The acceptance condition of claim C1 exactly as stated by the spec:
all four arguments non-empty, `|floor(now/1000) - parseInt(timestamp)| <= 300`
(false when `parseInt` yields `NaN`, since no real number satisfies the
bound), and the provided signature equals `v0=` followed by the digest. -/
def slackClaimAccepts (hmacHex : JSString → JSString → JSString)
    (now : Int) (signingSecret sig timestamp body : JSString) : Bool :=
  !signingSecret.isEmpty && !sig.isEmpty && !timestamp.isEmpty && !body.isEmpty &&
    (match jsParseInt timestamp with
     | some t => decide ((now - t).natAbs ≤ 300)
     | none => false) &&
    (sig == cu "v0=" ++ hmacHex signingSecret (cu "v0:" ++ timestamp ++ cu ":" ++ body))

/-- A stand-in digest function used only to exercise the control flow at a
concrete input. -/
def hmacHexStub : JSString → JSString → JSString := fun _ _ => cu "ab"

/-- C1 counterexample: for the non-numeric timestamp "x" (so
`Number.parseInt` yields `NaN`), a matching signature is accepted by the
code, while the claim's replay-window condition
`|floor(now/1000) - parseInt(timestamp)| <= 300` is false — the claimed
"if and only if" fails. -/
theorem slack_claim_counterexample :
    validateSlackSignature hmacHexStub 0 (cu "k") (cu "v0=ab") (cu "x") (cu "b") = true ∧
    slackClaimAccepts hmacHexStub 0 (cu "k") (cu "v0=ab") (cu "x") (cu "b") = false := by
  exact ⟨rfl, rfl⟩

/-- C1 (amended): `validateSlackSignature` returns true iff all four
arguments are non-empty, the replay-window guard does not reject — i.e. it
is NOT the case that the timestamp parses to a number differing from
`floor(now/1000)` by more than 300 seconds; in particular a non-numeric
timestamp (parsing to `NaN`) passes the guard — and the provided signature
equals `v0=` followed by the lowercase hex HMAC-SHA256 of
`v0:{timestamp}:{body}` keyed by the signing secret. -/
theorem slack_signature_characterization
    (hmacHex : JSString → JSString → JSString) (now : Int)
    (signingSecret sig timestamp body : JSString) :
    validateSlackSignature hmacHex now signingSecret sig timestamp body = true ↔
      (signingSecret ≠ [] ∧ sig ≠ [] ∧ timestamp ≠ [] ∧ body ≠ [] ∧
        slackTimestampTooOld now timestamp = false ∧
        sig = cu "v0=" ++
          hmacHex signingSecret (cu "v0:" ++ timestamp ++ cu ":" ++ body)) := by
  unfold validateSlackSignature
  by_cases h1 : (signingSecret.isEmpty || sig.isEmpty || timestamp.isEmpty ||
      body.isEmpty) = true
  · rw [if_pos h1]
    simp only [Bool.or_eq_true, List.isEmpty_iff] at h1
    simp only [Bool.false_eq_true, false_iff]
    rintro ⟨hs, hg, ht, hb, -, -⟩
    rcases h1 with ((h | h) | h) | h <;> [exact hs h; exact hg h; exact ht h; exact hb h]
  · rw [if_neg h1]
    simp only [Bool.or_eq_true, List.isEmpty_iff, not_or] at h1
    obtain ⟨⟨⟨hs, hg⟩, ht⟩, hb⟩ := h1
    by_cases h2 : slackTimestampTooOld now timestamp = true
    · rw [if_pos h2]
      simp only [Bool.false_eq_true, false_iff]
      rintro ⟨-, -, -, -, hguard, -⟩
      rw [h2] at hguard
      exact Bool.true_eq_false ▸ hguard
    · rw [if_neg h2]
      rw [ctCompare_eq_iff]
      simp only [Bool.not_eq_true] at h2
      constructor
      · intro hc
        exact ⟨hs, hg, ht, hb, h2, hc.symm⟩
      · rintro ⟨-, -, -, -, -, hc⟩
        exact hc.symm

/-- JavaScript `s.startsWith(p)`. -/
def jsStartsWith (s p : JSString) : Bool := s.take p.length == p

/-- Embedding of `validateMicrosoftTeamsSignature` (utils.ts lines 650-689).
`hmacB64 secret body` abstracts the platform primitive used at lines
669-672: the base64 encoding of HMAC-SHA256 over the UTF-8 raw body keyed by
the base64-decoded `secret` (`Buffer.from(secret, 'base64')`).  The
emptiness guard, the `HMAC ` prefix check, the prefix stripping
(`substring(5)`) and the constant-time comparison are embedded from the
source. -/
def validateMicrosoftTeamsSignature (hmacB64 : JSString → JSString → JSString)
    (hmacSecret sig body : JSString) : Bool :=
  if hmacSecret.isEmpty || sig.isEmpty || body.isEmpty then false
  else if !jsStartsWith sig (cu "HMAC ") then false
  else
    let providedSignature := sig.drop 5
    let computedHash := hmacB64 hmacSecret body
    ctCompare computedHash providedSignature

/-- C4: `validateMicrosoftTeamsSignature` returns true iff all three
arguments are non-empty, the signature starts with `HMAC `, and the
remainder of the signature equals the (base64-encoded) HMAC-SHA256 digest of
the raw body keyed by the base64-decoded secret; in every other case it
returns false. -/
theorem teams_signature_characterization
    (hmacB64 : JSString → JSString → JSString) (hmacSecret sig body : JSString) :
    validateMicrosoftTeamsSignature hmacB64 hmacSecret sig body = true ↔
      (hmacSecret ≠ [] ∧ sig ≠ [] ∧ body ≠ [] ∧
        jsStartsWith sig (cu "HMAC ") = true ∧
        sig.drop 5 = hmacB64 hmacSecret body) := by
  unfold validateMicrosoftTeamsSignature
  by_cases h1 : (hmacSecret.isEmpty || sig.isEmpty || body.isEmpty) = true
  · rw [if_pos h1]
    simp only [Bool.or_eq_true, List.isEmpty_iff] at h1
    simp only [Bool.false_eq_true, false_iff]
    rintro ⟨hs, hg, hb, -, -⟩
    rcases h1 with (h | h) | h <;> [exact hs h; exact hg h; exact hb h]
  · rw [if_neg h1]
    simp only [Bool.or_eq_true, List.isEmpty_iff, not_or] at h1
    obtain ⟨⟨hs, hg⟩, hb⟩ := h1
    by_cases h2 : jsStartsWith sig (cu "HMAC ") = true
    · rw [if_neg (by simp [h2])]
      rw [ctCompare_eq_iff]
      constructor
      · intro hc
        exact ⟨hs, hg, hb, h2, hc.symm⟩
      · rintro ⟨-, -, -, -, hc⟩
        exact hc.symm
    · rw [if_pos (by simp [Bool.not_eq_true] at h2 ⊢; exact h2)]
      simp only [Bool.false_eq_true, false_iff]
      rintro ⟨-, -, -, hp, -⟩
      exact h2 hp

/-- One Airtable `GET /bases/{baseId}/webhooks/{id}/payloads` response, as the
polling loop in `fetchAndProcessAirtablePayloads` inspects it: `ok` models
`response.ok && !responseBody.error`; `cursor` is `responseBody.cursor` when
it is a number (`none` models a missing or non-numeric cursor);
`mightHaveMore` is `responseBody.mightHaveMore || false`. -/
structure AirtableResp where
  ok : Bool
  cursor : Option Int
  mightHaveMore : Bool
deriving DecidableEq

/-- The environment of one invocation of `fetchAndProcessAirtablePayloads`:
`fetchResult k` is the outcome of the k-th API call (`none` models a thrown
network error), and `dbOk j` tells whether the j-th cursor persist
(`db.update(webhook).set({providerConfig: ...})`) succeeds. -/
structure PollEnv where
  fetchResult : Nat → Option AirtableResp
  dbOk : Nat → Bool

/-- Observable outcome of the polling loop: `fetchLog` records, for each
fetch issued, the pair (local `currentCursor`, cursor stored in the webhook
row's `providerConfig.externalWebhookCursor`) at the moment the fetch is
issued; `persistLog` records every cursor successfully persisted, in order;
`finalCursor` / `finalDbCursor` are the local and stored cursors when the
loop exits. -/
structure PollResult where
  fetchLog : List (Option Int × Option Int)
  persistLog : List Int
  finalCursor : Option Int
  finalDbCursor : Option Int
deriving DecidableEq

/-- Embedding of the polling loop of `fetchAndProcessAirtablePayloads`
(utils.ts lines 955-1185).  Each iteration increments the API call counter,
breaks without fetching once it exceeds 10, issues the fetch, and then
applies the cursor logic of lines 1132-1175: a truthy (non-zero) numeric
cursor different from the current one is persisted — on persist failure the
loop stops (the `throw` at line 1163 is caught by the catch at line 1176,
which breaks) — and a missing, non-numeric, zero (falsy), or unchanged
cursor stops the loop; otherwise polling continues iff `mightHaveMore`. -/
def pollLoop (env : PollEnv) (cursor dbCursor : Option Int) (count pIdx : Nat) :
    PollResult :=
  if h : 10 < count + 1 then ⟨[], [], cursor, dbCursor⟩
  else
    match env.fetchResult (count + 1) with
    | none => ⟨[(cursor, dbCursor)], [], cursor, dbCursor⟩
    | some resp =>
        if resp.ok = false then ⟨[(cursor, dbCursor)], [], cursor, dbCursor⟩
        else
          match resp.cursor with
          | some c =>
              if c ≠ 0 ∧ some c ≠ cursor then
                if env.dbOk pIdx then
                  if resp.mightHaveMore then
                    let rest := pollLoop env (some c) (some c) (count + 1) (pIdx + 1)
                    ⟨(cursor, dbCursor) :: rest.fetchLog, c :: rest.persistLog,
                      rest.finalCursor, rest.finalDbCursor⟩
                  else ⟨[(cursor, dbCursor)], [c], some c, some c⟩
                else ⟨[(cursor, dbCursor)], [], some c, dbCursor⟩
              else ⟨[(cursor, dbCursor)], [], cursor, dbCursor⟩
          | none => ⟨[(cursor, dbCursor)], [], cursor, dbCursor⟩
termination_by 10 - count
decreasing_by omega

lemma pollLoop_fetch_bound (env : PollEnv) (cursor dbCursor : Option Int)
    (count pIdx : Nat) :
    (pollLoop env cursor dbCursor count pIdx).fetchLog.length ≤ 10 - count := by
  unfold pollLoop
  by_cases h : 10 < count + 1
  · simp [h]
  · rw [dif_neg h]
    cases hf : env.fetchResult (count + 1) with
    | none => simp; omega
    | some resp =>
        dsimp only
        by_cases hok : resp.ok = false
        · simp [hok]; omega
        · rw [if_neg hok]
          cases hc : resp.cursor with
          | none => simp; omega
          | some c =>
              dsimp only
              by_cases hcc : c ≠ 0 ∧ some c ≠ cursor
              · rw [if_pos hcc]
                by_cases hdb : env.dbOk pIdx = true
                · rw [if_pos hdb]
                  by_cases hm : resp.mightHaveMore = true
                  · rw [if_pos hm]
                    have ih := pollLoop_fetch_bound env (some c) (some c)
                      (count + 1) (pIdx + 1)
                    simp only [List.length_cons]
                    omega
                  · rw [if_neg hm]; simp; omega
                · rw [if_neg hdb]; simp; omega
              · rw [if_neg hcc]; simp; omega
termination_by 10 - count
decreasing_by omega

/-- C2: for every environment (i.e. regardless of the `mightHaveMore` values
and cursors the API returns and whether persists succeed), an invocation of
the polling loop of `fetchAndProcessAirtablePayloads` issues at most 10
Airtable API fetch calls; the counter is incremented before each fetch and
the loop breaks without fetching as soon as it exceeds 10.  Termination is
witnessed by `pollLoop` being a total function. -/
theorem airtable_poll_at_most_ten_fetches (env : PollEnv)
    (cursor dbCursor : Option Int) :
    (pollLoop env cursor dbCursor 0 0).fetchLog.length ≤ 10 := by
  simpa using pollLoop_fetch_bound env cursor dbCursor 0 0

lemma pollLoop_fetch_pairs (env : PollEnv) (c0 : Option Int) (count pIdx : Nat) :
    ∀ p ∈ (pollLoop env c0 c0 count pIdx).fetchLog, p.1 = p.2 := by
  unfold pollLoop
  by_cases h : 10 < count + 1
  · simp [h]
  · rw [dif_neg h]
    cases hf : env.fetchResult (count + 1) with
    | none => simp
    | some resp =>
        dsimp only
        by_cases hok : resp.ok = false
        · simp [hok]
        · rw [if_neg hok]
          cases hc : resp.cursor with
          | none => simp
          | some c =>
              dsimp only
              by_cases hcc : c ≠ 0 ∧ some c ≠ c0
              · rw [if_pos hcc]
                by_cases hdb : env.dbOk pIdx = true
                · rw [if_pos hdb]
                  by_cases hm : resp.mightHaveMore = true
                  · rw [if_pos hm]
                    intro p hp
                    simp only [List.mem_cons] at hp
                    rcases hp with rfl | hp
                    · rfl
                    · exact pollLoop_fetch_pairs env (some c) (count + 1) (pIdx + 1) p hp
                  · rw [if_neg hm]; simp
                · rw [if_neg hdb]; simp
              · rw [if_neg hcc]; simp
termination_by 10 - count
decreasing_by omega

lemma pollLoop_stop (env : PollEnv) (cur db : Option Int) (count pIdx : Nat)
    (resp : AirtableResp) (h : ¬10 < count + 1)
    (hf : env.fetchResult (count + 1) = some resp) (hok : resp.ok = true)
    (hc : resp.cursor = none ∨ resp.cursor = some 0 ∨ resp.cursor = cur) :
    pollLoop env cur db count pIdx = ⟨[(cur, db)], [], cur, db⟩ := by
  unfold pollLoop
  rw [dif_neg h, hf]
  dsimp only
  rw [if_neg (by simp [hok])]
  rcases hc with hc | hc | hc
  · rw [hc]
  · rw [hc]
    dsimp only
    rw [if_neg (by simp)]
  · rw [hc]
    cases cur with
    | none => rfl
    | some c =>
        dsimp only
        rw [if_neg (by simp)]

lemma pollLoop_dbfail (env : PollEnv) (cur db : Option Int) (count pIdx : Nat)
    (resp : AirtableResp) (c : Int) (h : ¬10 < count + 1)
    (hf : env.fetchResult (count + 1) = some resp) (hok : resp.ok = true)
    (hc : resp.cursor = some c) (h0 : c ≠ 0) (hne : some c ≠ cur)
    (hdb : env.dbOk pIdx = false) :
    pollLoop env cur db count pIdx = ⟨[(cur, db)], [], some c, db⟩ := by
  unfold pollLoop
  rw [dif_neg h, hf]
  dsimp only
  rw [if_neg (by simp [hok]), hc]
  dsimp only
  rw [if_pos ⟨h0, hne⟩, if_neg (by simp [hdb])]

lemma pollLoop_persist (env : PollEnv) (cur db : Option Int) (count pIdx : Nat)
    (resp : AirtableResp) (c : Int) (h : ¬10 < count + 1)
    (hf : env.fetchResult (count + 1) = some resp) (hok : resp.ok = true)
    (hc : resp.cursor = some c) (h0 : c ≠ 0) (hne : some c ≠ cur)
    (hdb : env.dbOk pIdx = true) :
    pollLoop env cur db count pIdx =
      if resp.mightHaveMore then
        ⟨(cur, db) :: (pollLoop env (some c) (some c) (count + 1) (pIdx + 1)).fetchLog,
          c :: (pollLoop env (some c) (some c) (count + 1) (pIdx + 1)).persistLog,
          (pollLoop env (some c) (some c) (count + 1) (pIdx + 1)).finalCursor,
          (pollLoop env (some c) (some c) (count + 1) (pIdx + 1)).finalDbCursor⟩
      else ⟨[(cur, db)], [c], some c, some c⟩ := by
  conv_lhs => rw [pollLoop]
  rw [dif_neg h, hf]
  dsimp only
  rw [if_neg (by simp [hok]), hc]
  dsimp only
  rw [if_pos ⟨h0, hne⟩, if_pos hdb]

/-- C3 (amended): in the polling loop of `fetchAndProcessAirtablePayloads`,
(1) every fetch is issued with the local cursor equal to the cursor stored in
the webhook row's `providerConfig` (a changed cursor is persisted before the
next fetch); (2) the loop stops — one fetch, no persist, cursors unchanged —
when the response's cursor is missing, non-numeric, zero (falsy, rejected by
the truthiness test `nextCursor && ...`), or equal to the current cursor;
(3) when persisting a new non-zero changed cursor fails, the loop stops
without a further fetch rather than continuing with an unsaved cursor; and
(4) when persisting succeeds, the cursor is recorded in the persist log in
the same iteration, before any subsequent fetch, and polling continues iff
`mightHaveMore`. -/
theorem airtable_cursor_persistence_and_stopping :
    (∀ (env : PollEnv) (c0 : Option Int) (count pIdx : Nat),
      ∀ p ∈ (pollLoop env c0 c0 count pIdx).fetchLog, p.1 = p.2) ∧
    (∀ (env : PollEnv) (cur db : Option Int) (count pIdx : Nat)
        (resp : AirtableResp), ¬10 < count + 1 →
      env.fetchResult (count + 1) = some resp → resp.ok = true →
      (resp.cursor = none ∨ resp.cursor = some 0 ∨ resp.cursor = cur) →
      pollLoop env cur db count pIdx = ⟨[(cur, db)], [], cur, db⟩) ∧
    (∀ (env : PollEnv) (cur db : Option Int) (count pIdx : Nat)
        (resp : AirtableResp) (c : Int), ¬10 < count + 1 →
      env.fetchResult (count + 1) = some resp → resp.ok = true →
      resp.cursor = some c → c ≠ 0 → some c ≠ cur → env.dbOk pIdx = false →
      pollLoop env cur db count pIdx = ⟨[(cur, db)], [], some c, db⟩) ∧
    (∀ (env : PollEnv) (cur db : Option Int) (count pIdx : Nat)
        (resp : AirtableResp) (c : Int), ¬10 < count + 1 →
      env.fetchResult (count + 1) = some resp → resp.ok = true →
      resp.cursor = some c → c ≠ 0 → some c ≠ cur → env.dbOk pIdx = true →
      pollLoop env cur db count pIdx =
        if resp.mightHaveMore then
          ⟨(cur, db) :: (pollLoop env (some c) (some c) (count + 1) (pIdx + 1)).fetchLog,
            c :: (pollLoop env (some c) (some c) (count + 1) (pIdx + 1)).persistLog,
            (pollLoop env (some c) (some c) (count + 1) (pIdx + 1)).finalCursor,
            (pollLoop env (some c) (some c) (count + 1) (pIdx + 1)).finalDbCursor⟩
        else ⟨[(cur, db)], [c], some c, some c⟩) :=
  ⟨pollLoop_fetch_pairs,
   fun env cur db count pIdx resp h hf hok hc =>
     pollLoop_stop env cur db count pIdx resp h hf hok hc,
   fun env cur db count pIdx resp c h hf hok hc h0 hne hdb =>
     pollLoop_dbfail env cur db count pIdx resp c h hf hok hc h0 hne hdb,
   fun env cur db count pIdx resp c h hf hok hc h0 hne hdb =>
     pollLoop_persist env cur db count pIdx resp c h hf hok hc h0 hne hdb⟩

/-- Environment in which every API call succeeds and returns cursor `0` with
`mightHaveMore = true`, and every DB persist would succeed. -/
def cursorZeroEnv : PollEnv :=
  ⟨fun _ => some ⟨true, some 0, true⟩, fun _ => true⟩

/-- Environment for the witness: the first response reports no cursor. -/
def cursorNoneEnv : PollEnv :=
  ⟨fun _ => some ⟨true, none, true⟩, fun _ => true⟩

/-- C3 counterexample: the first poll response is successful and carries the
numeric cursor `0`, different from the current cursor `5`, with
`mightHaveMore = true` and a database that would accept the persist — yet
nothing is persisted and polling stops after that single fetch, because the
truthiness test `nextCursor && typeof nextCursor === 'number' && ...`
rejects the falsy cursor `0`.  The claim requires this cursor to be
persisted before the next fetch. -/
theorem airtable_cursor_claim_counterexample :
    cursorZeroEnv.fetchResult 1 = some ⟨true, some 0, true⟩ ∧
    cursorZeroEnv.dbOk 0 = true ∧
    pollLoop cursorZeroEnv (some 5) (some 5) 0 0 =
      ⟨[(some 5, some 5)], [], some 5, some 5⟩ := by
  refine ⟨rfl, rfl, ?_⟩
  exact pollLoop_stop cursorZeroEnv (some 5) (some 5) 0 0 ⟨true, some 0, true⟩
    (by decide) rfl rfl (Or.inr (Or.inl rfl))

/-- Witness for `airtable_cursor_persistence_and_stopping` at a concrete
environment: a first response with a missing cursor stops the loop after one
fetch with nothing persisted. -/
theorem airtable_cursor_persistence_and_stopping_witness :
    pollLoop cursorNoneEnv (some 3) (some 3) 0 0 =
      ⟨[(some 3, some 3)], [], some 3, some 3⟩ :=
  airtable_cursor_persistence_and_stopping.2.1 cursorNoneEnv (some 3) (some 3)
    0 0 ⟨true, none, true⟩ (by decide) rfl rfl (Or.inl rfl)

/-- Association-list get, modelling JavaScript `Map.prototype.get` (with
`none` for `undefined`). -/
def aget {α : Type} : List (String × α) → String → Option α
  | [], _ => none
  | (k', v) :: rest, k => if k' = k then some v else aget rest k

/-- Association-list set, modelling JavaScript `Map.prototype.set`. -/
def aset {α : Type} : List (String × α) → String → α → List (String × α)
  | [], k, v => [(k, v)]
  | (k', v') :: rest, k, v =>
      if k' = k then (k, v) :: rest else (k', v') :: aset rest k v

lemma aget_aset_self {α : Type} (l : List (String × α)) (k : String) (v : α) :
    aget (aset l k v) k = some v := by
  induction l with
  | nil => simp [aset, aget]
  | cons p rest ih =>
      by_cases h : p.1 = k
      · simp [aset, aget, h]
      · simp [aset, aget, h, ih]

lemma aget_aset_other {α : Type} (l : List (String × α)) (k k' : String)
    (v : α) (h : k ≠ k') : aget (aset l k v) k' = aget l k' := by
  induction l with
  | nil => simp [aset, aget, h]
  | cons p rest ih =>
      by_cases hp : p.1 = k
      · simp [aset, aget, hp, h]
      · simp only [aset, if_neg hp]
        by_cases hp' : p.1 = k'
        · simp [aget, hp']
        · simp [aget, hp', ih]

/-- An incoming remote `update-position` operation, as inspected by the
handler in `useCollaborativeWorkflow` (use-collaborative-workflow.ts lines
129-156): `payload.id`, `payload.position` and `data.timestamp` (a missing
timestamp is `none`). -/
structure PosUpdate where
  blockId : String
  pos : Int × Int
  timestamp : Option Nat
deriving DecidableEq

/-- The state the handler touches: `lastPositionTimestamps` (line 50) and the
block positions updated through `workflowStore.updateBlockPosition`. -/
structure PosState where
  lastTs : List (String × Nat)
  positions : List (String × (Int × Int))
deriving DecidableEq

/-- Embedding of the `update-position` case of the remote operation handler
(use-collaborative-workflow.ts lines 129-156).  `if (!data.timestamp)`
applies the update without an ordering check (and without recording) — note
that the JavaScript test also treats a `0` timestamp as missing, since `!0`
is true.  Otherwise the update is applied iff its timestamp is `>=` the
stored last timestamp (`get(blockId) || 0`, i.e. 0 when absent), in which
case the new timestamp is recorded; out-of-order updates are skipped
without touching the state.  Returns the new state and whether the update
was applied. -/
def applyPositionUpdate (s : PosState) (u : PosUpdate) : PosState × Bool :=
  match u.timestamp with
  | none => ({ s with positions := aset s.positions u.blockId u.pos }, true)
  | some t =>
      if t = 0 then ({ s with positions := aset s.positions u.blockId u.pos }, true)
      else
        let lastT := (aget s.lastTs u.blockId).getD 0
        if lastT ≤ t then
          ({ lastTs := aset s.lastTs u.blockId t,
             positions := aset s.positions u.blockId u.pos }, true)
        else (s, false)

/-- Timestamps (in order) of the applied updates that carried a non-zero
timestamp for block `b`, along a list of incoming updates. -/
def appliedTsFor (s : PosState) (us : List PosUpdate) (b : String) : List Nat :=
  match us with
  | [] => []
  | u :: rest =>
      let r := applyPositionUpdate s u
      let tail := appliedTsFor r.1 rest b
      match u.timestamp with
      | some t => if u.blockId = b ∧ t ≠ 0 ∧ r.2 = true then t :: tail else tail
      | none => tail

/-- The state after applying a whole list of incoming position updates. -/
def runPositionUpdates (s : PosState) (us : List PosUpdate) : PosState :=
  us.foldl (fun st u => (applyPositionUpdate st u).1) s

/-- Initial state: no timestamps recorded, no positions. -/
def initialPosState : PosState := ⟨[], []⟩

/-- State after applying an update with timestamp 5 to block "b" from the
initial state. -/
def cexPosState : PosState :=
  (applyPositionUpdate initialPosState ⟨"b", (0, 0), some 5⟩).1

/-- C6 counterexample: after an applied update with timestamp 5 for block
"b", an incoming update for "b" carrying timestamp 0 — strictly older than
the stored last applied timestamp 5 — is nevertheless applied and moves the
block, because `if (!data.timestamp)` treats the falsy timestamp `0` as a
missing timestamp and skips the ordering check.  The claim states such an
update is never applied. -/
theorem position_timestamp_claim_counterexample :
    aget cexPosState.lastTs "b" = some 5 ∧
    (applyPositionUpdate cexPosState ⟨"b", (1, 1), some 0⟩).2 = true ∧
    aget (applyPositionUpdate cexPosState ⟨"b", (1, 1), some 0⟩).1.positions "b" =
      some (1, 1) :=
  ⟨rfl, rfl, rfl⟩

lemma applyPositionUpdate_missing (s : PosState) (u : PosUpdate)
    (h : u.timestamp = none ∨ u.timestamp = some 0) :
    applyPositionUpdate s u =
      ({ s with positions := aset s.positions u.blockId u.pos }, true) := by
  rcases h with h | h <;> simp [applyPositionUpdate, h]

lemma applyPositionUpdate_some (s : PosState) (u : PosUpdate) (t : Nat)
    (ht : u.timestamp = some t) (h0 : t ≠ 0) :
    applyPositionUpdate s u =
      if (aget s.lastTs u.blockId).getD 0 ≤ t then
        ({ lastTs := aset s.lastTs u.blockId t,
           positions := aset s.positions u.blockId u.pos }, true)
      else (s, false) := by
  simp [applyPositionUpdate, ht, h0]

lemma appliedTsFor_chain (us : List PosUpdate) (s : PosState) (b : String) :
    List.Chain' (· ≤ ·) ((aget s.lastTs b).getD 0 :: appliedTsFor s us b) := by
  induction us generalizing s with
  | nil => simp [appliedTsFor]
  | cons u rest ih =>
      cases hts : u.timestamp with
      | none =>
          have hr := applyPositionUpdate_missing s u (Or.inl hts)
          have hlast : (applyPositionUpdate s u).1.lastTs = s.lastTs := by
            rw [hr]
          rw [appliedTsFor]
          simp only [hts]
          have := ih (applyPositionUpdate s u).1
          rwa [hlast] at this
      | some t =>
          by_cases h0 : t = 0
          · subst h0
            have hr := applyPositionUpdate_missing s u (Or.inr hts)
            have hlast : (applyPositionUpdate s u).1.lastTs = s.lastTs := by
              rw [hr]
            rw [appliedTsFor]
            simp only [hts, ne_eq, not_true_eq_false, and_false, false_and,
              if_false]
            have := ih (applyPositionUpdate s u).1
            rwa [hlast] at this
          · have hr := applyPositionUpdate_some s u t hts h0
            by_cases happ : (aget s.lastTs u.blockId).getD 0 ≤ t
            · rw [if_pos happ] at hr
              by_cases hb : u.blockId = b
              · subst hb
                rw [appliedTsFor]
                simp only [hts, hr]
                rw [if_pos (show _ ∧ _ ∧ _ from by
                  exact ⟨by trivial, h0, by trivial⟩)]
                have htail := ih (applyPositionUpdate s u).1
                rw [hr] at htail
                simp only [aget_aset_self, Option.getD_some] at htail
                exact List.Chain'.cons happ htail
              · rw [appliedTsFor]
                simp only [hts, hr]
                rw [if_neg (by simp [hb])]
                have htail := ih (applyPositionUpdate s u).1
                rw [hr] at htail
                simp only at htail
                rwa [aget_aset_other _ _ _ _ hb] at htail
            · rw [if_neg happ] at hr
              rw [appliedTsFor]
              simp only [hts, hr]
              rw [if_neg (by simp)]
              exact ih s

/-- C6 (amended): in the remote `update-position` handler, an update that
carries no timestamp — or the falsy timestamp `0`, which `!data.timestamp`
treats identically — is applied without an ordering check and without
recording a timestamp.  An update with a non-zero timestamp `t` is applied
iff `t` is `>=` the stored last applied timestamp for that block (0 when
none is stored); on application the position and the stored timestamp are
updated, and an out-of-order update is skipped without changing any state.
Consequently, along any sequence of incoming updates the timestamps of the
applied non-zero-timestamp updates of each block form a non-decreasing
sequence (starting from the stored value). -/
theorem position_update_ordering_characterization :
    (∀ (s : PosState) (u : PosUpdate) (t : Nat), u.timestamp = some t → t ≠ 0 →
      (((applyPositionUpdate s u).2 = true ↔ (aget s.lastTs u.blockId).getD 0 ≤ t) ∧
        ((aget s.lastTs u.blockId).getD 0 ≤ t →
          aget (applyPositionUpdate s u).1.lastTs u.blockId = some t ∧
          aget (applyPositionUpdate s u).1.positions u.blockId = some u.pos) ∧
        (¬(aget s.lastTs u.blockId).getD 0 ≤ t → (applyPositionUpdate s u).1 = s))) ∧
    (∀ (s : PosState) (u : PosUpdate), (u.timestamp = none ∨ u.timestamp = some 0) →
      (applyPositionUpdate s u).2 = true ∧
      (applyPositionUpdate s u).1.lastTs = s.lastTs ∧
      (applyPositionUpdate s u).1.positions = aset s.positions u.blockId u.pos) ∧
    (∀ (s : PosState) (us : List PosUpdate) (b : String),
      List.Chain' (· ≤ ·) ((aget s.lastTs b).getD 0 :: appliedTsFor s us b)) := by
  refine ⟨?_, ?_, fun s us b => appliedTsFor_chain us s b⟩
  · intro s u t ht h0
    have hr := applyPositionUpdate_some s u t ht h0
    by_cases happ : (aget s.lastTs u.blockId).getD 0 ≤ t
    · rw [if_pos happ] at hr
      refine ⟨by simp [hr, happ], fun _ => ?_, fun hc => absurd happ hc⟩
      rw [hr]
      exact ⟨aget_aset_self _ _ _, aget_aset_self _ _ _⟩
    · rw [if_neg happ] at hr
      exact ⟨by simp [hr, happ], fun hc => absurd hc happ, fun _ => by rw [hr]⟩
  · intro s u h
    have hr := applyPositionUpdate_missing s u h
    rw [hr]
    exact ⟨rfl, rfl, rfl⟩

/-- Witness for `position_update_ordering_characterization` at concrete
inputs: a first update with timestamp 7 for block "b" from the initial
state. -/
theorem position_update_ordering_characterization_witness :
    ((applyPositionUpdate initialPosState ⟨"b", (2, 3), some 7⟩).2 = true ↔
      (aget initialPosState.lastTs "b").getD 0 ≤ 7) ∧
    List.Chain' (· ≤ ·) ((aget initialPosState.lastTs "b").getD 0 ::
      appliedTsFor initialPosState [⟨"b", (2, 3), some 7⟩] "b") :=
  ⟨(position_update_ordering_characterization.1 initialPosState
      ⟨"b", (2, 3), some 7⟩ 7 rfl (by decide)).1,
    position_update_ordering_characterization.2.2 initialPosState
      [⟨"b", (2, 3), some 7⟩] "b"⟩

/-- Client context read by the collaborative-edit guards in
`useCollaborativeWorkflow`: the remote-change suppression flag
(`isApplyingRemoteChange.current`, line 47), the diff flag
(`isShowingDiff`), and the socket / registry workflow ids. -/
structure CollabCtx where
  isApplyingRemoteChange : Bool
  isShowingDiff : Bool
  currentWorkflowId : Option String
  activeWorkflowId : Option String

/-- Embedding of `isInActiveRoom` (use-collaborative-workflow.ts lines
63-65): `!!currentWorkflowId && activeWorkflowId === currentWorkflowId`
(`!!` is false for `null` and for the empty string). -/
def isInActiveRoom (ctx : CollabCtx) : Bool :=
  match ctx.currentWorkflowId with
  | none => false
  | some w => !(w == "") && (ctx.activeWorkflowId == some w)

/-- An entry added to the operation queue by `addToQueue`: the freshly
generated id (`crypto.randomUUID()`, modelled as a fresh counter value — a
new value never used before), the operation descriptor, the workflow id
(`activeWorkflowId || ''`), the user id, and the `immediate` flag used by
tag selection. -/
structure GenQueuedOp (P : Type) where
  id : Nat
  operation : String
  target : String
  payload : P
  workflowId : String
  userId : String
  immediate : Bool
deriving DecidableEq

/-- Embedding of `executeQueuedOperation` (use-collaborative-workflow.ts
lines 465-510): return early while applying a remote change, while showing
a diff, or when not in the active workflow room; otherwise add exactly one
operation with a fresh id to the queue and run the local action.  Returns
the list of queue additions and whether the local action ran. -/
def executeQueuedOperation {P : Type} (ctx : CollabCtx) (uid : Nat)
    (userId operation target : String) (payload : P) :
    List (GenQueuedOp P) × Bool :=
  if ctx.isApplyingRemoteChange then ([], false)
  else if ctx.isShowingDiff then ([], false)
  else if !isInActiveRoom ctx then ([], false)
  else
    ([⟨uid, operation, target, payload, ctx.activeWorkflowId.getD "", userId,
        false⟩], true)

/-- Embedding of `executeQueuedDebouncedOperation` (lines 512-536): same
guards; otherwise run the local action and emit the operation directly (no
queue entry).  Returns whether the local action ran and the list of emitted
operations. -/
def executeQueuedDebouncedOperation {P : Type} (ctx : CollabCtx)
    (operation target : String) (payload : P) :
    Bool × List (String × String × P) :=
  if ctx.isApplyingRemoteChange then (false, [])
  else if ctx.isShowingDiff then (false, [])
  else if !isInActiveRoom ctx then (false, [])
  else (true, [(operation, target, payload)])

/-- A sub-block entry of a block configuration (`blockConfig.subBlocks`):
its id and the ids of the sub-blocks it depends on (`dependsOn`). -/
structure SubBlockCfg where
  id : String
  dependsOn : List String
deriving DecidableEq

/-- Queue entry for sub-block updates, whose payload is
`{ blockId, subblockId, value }`. -/
abbrev SubQueuedOp := GenQueuedOp (String × String × String)

/-- Accumulated effects of `collaborativeSetSubblockValue`: the queue
additions, the local `subBlockStore.setValue` writes (in order), the next
fresh id, and the `_visited` set (as a list). -/
structure SubEffects where
  ops : List SubQueuedOp
  writes : List (String × String × String)
  ctr : Nat
  visited : List String
deriving DecidableEq

/-- Embedding of `collaborativeSetSubblockValue`
(use-collaborative-workflow.ts lines 828-897).  Guards: return early while
applying a remote change, while showing a diff, or outside the active room.
Otherwise add exactly one `subblock-update` operation with a fresh id to
the queue, apply the value to the local sub-block store, and then cascade:
unless this `subblockId` is already in the `_visited` set, mark it visited
and recursively clear (value `''`) every configured sub-block of the block
that `dependsOn` it (skipping entries with a falsy id or the same id),
threading the shared `_visited` set through the recursive calls in order,
as the mutable JavaScript `Set` does.  `fuel` bounds the recursion depth
purely to make the function structurally total: every recursion step
inserts a fresh id into `_visited` and all inserted ids after the first
come from `cfg`, so the recursion depth never exceeds `cfg.length + 2`, and
the entry point `collaborativeSetSubblockValue` supplies exactly that much
fuel — the fuel-exhaustion branch is unreachable from it
(`setSub_fuel_sufficient` makes this argument formal for the effects the
claims observe). -/
def setSubAux (ctx : CollabCtx) (userId : String) (cfg : List SubBlockCfg)
    (blockId : String) (fuel : Nat) (subblockId value : String)
    (visited : List String) (ctr : Nat) : SubEffects :=
  if ctx.isApplyingRemoteChange then ⟨[], [], ctr, visited⟩
  else if ctx.isShowingDiff then ⟨[], [], ctr, visited⟩
  else if !isInActiveRoom ctx then ⟨[], [], ctr, visited⟩
  else
    let op : SubQueuedOp := ⟨ctr, "subblock-update", "subblock",
      (blockId, subblockId, value), ctx.activeWorkflowId.getD "", userId, false⟩
    let w := (blockId, subblockId, value)
    if visited.contains subblockId then ⟨[op], [w], ctr + 1, visited⟩
    else
      let visited' := subblockId :: visited
      let deps := cfg.filter fun c =>
        c.dependsOn.contains subblockId && !(c.id == "") && !(c.id == subblockId)
      match fuel with
      | 0 => ⟨[op], [w], ctr + 1, visited'⟩
      | Nat.succ fuel' =>
          deps.foldl
            (fun acc d =>
              let r := setSubAux ctx userId cfg blockId fuel' d.id "" acc.visited
                acc.ctr
              ⟨acc.ops ++ r.ops, acc.writes ++ r.writes, r.ctr, r.visited⟩)
            ⟨[op], [w], ctr + 1, visited'⟩

/-- Entry point of `collaborativeSetSubblockValue`: fresh `_visited` set and
enough fuel for the visited-bounded recursion (see `setSubAux`). -/
def collaborativeSetSubblockValue (ctx : CollabCtx) (userId : String)
    (cfg : List SubBlockCfg) (blockId subblockId value : String) (ctr : Nat) :
    SubEffects :=
  setSubAux ctx userId cfg blockId (cfg.length + 2) subblockId value [] ctr

/-- Embedding of `collaborativeSetTagSelection` (lines 900-931): return
early while applying a remote change or outside the active room (this path
has no diff-mode guard); otherwise apply the value locally and add exactly
one immediate `subblock-update` operation with a fresh id to the queue.
Returns the queue additions and the local writes. -/
def collaborativeSetTagSelection (ctx : CollabCtx) (uid : Nat)
    (userId blockId subblockId value : String) :
    List SubQueuedOp × List (String × String × String) :=
  if ctx.isApplyingRemoteChange then ([], [])
  else if !isInActiveRoom ctx then ([], [])
  else
    ([⟨uid, "subblock-update", "subblock", (blockId, subblockId, value),
        ctx.activeWorkflowId.getD "", userId, true⟩],
      [(blockId, subblockId, value)])

/-- Common guard structure of the remote handlers `handleWorkflowOperation`,
`handleSubblockUpdate` and `handleVariableUpdate`
(use-collaborative-workflow.ts lines 93-103, 286-303, 305-331): if the
suppression flag is already set the handler returns without touching the
stores; otherwise it sets the flag, applies the remote change to the local
store, and finally resets the flag.  Returns the store state, the flag
after the handler, and whether the change was applied. -/
def handleRemote {S : Type} (flag : Bool) (applyOp : S → S) (s : S) :
    S × Bool × Bool :=
  if flag then (s, flag, false)
  else (applyOp s, false, true)

lemma range'_append_len (s m n : Nat) :
    List.range' s m ++ List.range' (s + m) n = List.range' s (m + n) := by
  have h := List.range'_append s m n 1
  simpa [Nat.one_mul, Nat.add_comm n m] using h

/-- The per-edit bookkeeping of `collaborativeSetSubblockValue`: every queue
addition is paired, in order, with exactly one local store write carrying
the same `{blockId, subblockId, value}` payload; the generated ids are the
consecutive fresh values starting at the incoming counter (hence pairwise
distinct and distinct from all previously generated ids); and the counter
advances by exactly the number of operations added. -/
def OpsSpec (r : SubEffects) (c0 : Nat) : Prop :=
  r.ops.map GenQueuedOp.payload = r.writes ∧
  r.ops.map GenQueuedOp.id = List.range' c0 r.ops.length ∧
  r.ctr = c0 + r.ops.length

lemma opsSpec_single (op : SubQueuedOp) (w : String × String × String)
    (vv : List String) (c0 : Nat) (hp : op.payload = w) (hi : op.id = c0) :
    OpsSpec ⟨[op], [w], c0 + 1, vv⟩ c0 := by
  refine ⟨by simp [hp], ?_, by simp⟩
  simp [hi, List.range']

lemma opsSpec_combine (acc r : SubEffects) (c0 : Nat)
    (h1 : OpsSpec acc c0) (h2 : OpsSpec r acc.ctr) :
    OpsSpec ⟨acc.ops ++ r.ops, acc.writes ++ r.writes, r.ctr, r.visited⟩ c0 := by
  obtain ⟨p1, i1, c1⟩ := h1
  obtain ⟨p2, i2, c2⟩ := h2
  refine ⟨by simp [p1, p2], ?_, by simp only [List.length_append]; omega⟩
  simp only [List.map_append, List.length_append, i1, i2, c1]
  exact range'_append_len c0 acc.ops.length r.ops.length

lemma setSub_ops_spec (ctx : CollabCtx) (userId : String)
    (cfg : List SubBlockCfg) (blockId : String)
    (hflag : ctx.isApplyingRemoteChange = false)
    (hdiff : ctx.isShowingDiff = false) (hroom : isInActiveRoom ctx = true) :
    ∀ (fuel : Nat) (sb v : String) (visited : List String) (ctr : Nat),
      OpsSpec (setSubAux ctx userId cfg blockId fuel sb v visited ctr) ctr := by
  intro fuel
  induction fuel with
  | zero =>
      intro sb v visited ctr
      rw [setSubAux]
      simp only [hflag, hdiff, hroom, Bool.false_eq_true, if_false,
        Bool.not_true, if_false]
      by_cases hv : visited.contains sb = true
      · rw [if_pos hv]
        exact opsSpec_single _ _ _ _ rfl rfl
      · rw [if_neg hv]
        exact opsSpec_single _ _ _ _ rfl rfl
  | succ f ih =>
      have hfold : ∀ (deps : List SubBlockCfg) (acc : SubEffects) (c0 : Nat),
          OpsSpec acc c0 →
          OpsSpec (deps.foldl
            (fun acc d =>
              let r := setSubAux ctx userId cfg blockId f d.id "" acc.visited
                acc.ctr
              ⟨acc.ops ++ r.ops, acc.writes ++ r.writes, r.ctr, r.visited⟩)
            acc) c0 := by
        intro deps
        induction deps with
        | nil => intro acc c0 h; simpa using h
        | cons d rest ihd =>
            intro acc c0 hacc
            simp only [List.foldl_cons]
            exact ihd _ _ (opsSpec_combine acc _ c0 hacc (ih _ _ _ _))
      intro sb v visited ctr
      rw [setSubAux]
      simp only [hflag, hdiff, hroom, Bool.false_eq_true, if_false,
        Bool.not_true, if_false]
      by_cases hv : visited.contains sb = true
      · rw [if_pos hv]
        exact opsSpec_single _ _ _ _ rfl rfl
      · rw [if_neg hv]
        exact hfold _ _ _ (opsSpec_single _ _ _ _ rfl rfl)

lemma setSubAux_ops_head (ctx : CollabCtx) (userId : String)
    (cfg : List SubBlockCfg) (blockId : String)
    (hflag : ctx.isApplyingRemoteChange = false)
    (hdiff : ctx.isShowingDiff = false) (hroom : isInActiveRoom ctx = true) :
    ∀ (fuel : Nat) (sb v : String) (visited : List String) (ctr : Nat), ∃ t,
      (setSubAux ctx userId cfg blockId fuel sb v visited ctr).ops =
        (⟨ctr, "subblock-update", "subblock", (blockId, sb, v),
          ctx.activeWorkflowId.getD "", userId, false⟩ : SubQueuedOp) :: t := by
  have hfold : ∀ (f : Nat) (deps : List SubBlockCfg) (acc : SubEffects), ∃ t,
      (deps.foldl
        (fun acc d =>
          let r := setSubAux ctx userId cfg blockId f d.id "" acc.visited acc.ctr
          ⟨acc.ops ++ r.ops, acc.writes ++ r.writes, r.ctr, r.visited⟩)
        acc).ops = acc.ops ++ t := by
    intro f deps
    induction deps with
    | nil => intro acc; exact ⟨[], by simp⟩
    | cons d rest ihd =>
        intro acc
        simp only [List.foldl_cons]
        generalize setSubAux ctx userId cfg blockId f d.id "" acc.visited acc.ctr = r
        obtain ⟨t', ht⟩ := ihd ⟨acc.ops ++ r.ops, acc.writes ++ r.writes, r.ctr,
          r.visited⟩
        exact ⟨r.ops ++ t', by rw [ht]; simp⟩
  intro fuel sb v visited ctr
  cases fuel with
  | zero =>
      rw [setSubAux]
      simp only [hflag, hdiff, hroom, Bool.false_eq_true, if_false,
        Bool.not_true, if_false]
      by_cases hv : visited.contains sb = true
      · rw [if_pos hv]; exact ⟨[], rfl⟩
      · rw [if_neg hv]; exact ⟨[], rfl⟩
  | succ f =>
      rw [setSubAux]
      simp only [hflag, hdiff, hroom, Bool.false_eq_true, if_false,
        Bool.not_true, if_false]
      by_cases hv : visited.contains sb = true
      · rw [if_pos hv]; exact ⟨[], rfl⟩
      · rw [if_neg hv]
        obtain ⟨t, ht⟩ := hfold f
          (cfg.filter fun c =>
            c.dependsOn.contains sb && !(c.id == "") && !(c.id == sb))
          ⟨[⟨ctr, "subblock-update", "subblock", (blockId, sb, v),
              ctx.activeWorkflowId.getD "", userId, false⟩],
            [(blockId, sb, v)], ctr + 1, sb :: visited⟩
        exact ⟨t, ht⟩

/-- C7: while the remote-change suppression flag `isApplyingRemoteChange` is
set, no local collaborative operation is enqueued or emitted:
`executeQueuedOperation`, `executeQueuedDebouncedOperation`,
`collaborativeSetSubblockValue` (at any fuel, any visited set) and
`collaborativeSetTagSelection` all return early — no queue addition, no
emit, no local store write — and an incoming remote handler likewise
returns early without touching the stores, so applying a remote change can
never re-trigger an outgoing operation. -/
theorem remote_change_suppression_no_echo :
    (∀ (P : Type) (ctx : CollabCtx) (uid : Nat)
        (userId operation target : String) (payload : P),
      ctx.isApplyingRemoteChange = true →
      executeQueuedOperation ctx uid userId operation target payload =
        ([], false)) ∧
    (∀ (P : Type) (ctx : CollabCtx) (operation target : String) (payload : P),
      ctx.isApplyingRemoteChange = true →
      executeQueuedDebouncedOperation ctx operation target payload =
        (false, [])) ∧
    (∀ (ctx : CollabCtx) (userId : String) (cfg : List SubBlockCfg)
        (blockId : String) (fuel : Nat) (sb v : String)
        (visited : List String) (ctr : Nat),
      ctx.isApplyingRemoteChange = true →
      setSubAux ctx userId cfg blockId fuel sb v visited ctr =
        ⟨[], [], ctr, visited⟩) ∧
    (∀ (ctx : CollabCtx) (uid : Nat) (userId blockId sb v : String),
      ctx.isApplyingRemoteChange = true →
      collaborativeSetTagSelection ctx uid userId blockId sb v = ([], [])) ∧
    (∀ (S : Type) (applyOp : S → S) (s : S),
      handleRemote true applyOp s = (s, true, false)) := by
  refine ⟨?_, ?_, ?_, ?_, ?_⟩
  · intro P ctx uid userId operation target payload h
    simp [executeQueuedOperation, h]
  · intro P ctx operation target payload h
    simp [executeQueuedDebouncedOperation, h]
  · intro ctx userId cfg blockId fuel sb v visited ctr h
    rw [setSubAux]
    simp [h]
  · intro ctx uid userId blockId sb v h
    simp [collaborativeSetTagSelection, h]
  · intro S applyOp s
    rfl

/-- Suppression-flag context used by the witness. -/
def ctxFlagged : CollabCtx := ⟨true, false, some "w", some "w"⟩

/-- Witness for `remote_change_suppression_no_echo` at concrete inputs. -/
theorem remote_change_suppression_no_echo_witness :
    executeQueuedOperation ctxFlagged 0 "user" "add" "block" (0 : Nat) =
      ([], false) ∧
    setSubAux ctxFlagged "user" [] "b" 2 "sb" "x" [] 0 = ⟨[], [], 0, []⟩ ∧
    collaborativeSetTagSelection ctxFlagged 3 "user" "b" "sb" "x" = ([], []) :=
  ⟨remote_change_suppression_no_echo.1 Nat ctxFlagged 0 "user" "add" "block" 0
      rfl,
    remote_change_suppression_no_echo.2.2.1 ctxFlagged "user" [] "b" 2 "sb" "x"
      [] 0 rfl,
    remote_change_suppression_no_echo.2.2.2.1 ctxFlagged 3 "user" "b" "sb" "x"
      rfl⟩

/-- C8: a collaborative edit issued while in the active workflow room, not
showing a diff, and not applying a remote change adds exactly one pending
operation with a freshly generated id to the operation queue and applies
the edit to the local store immediately, without waiting for server
confirmation: `executeQueuedOperation` queues exactly the one operation and
runs the local action, and `collaborativeSetSubblockValue` satisfies
`OpsSpec` — every queued operation is paired one-to-one, in order, with a
local store write of the same payload and carries a fresh, pairwise
distinct id — with the issued edit itself heading the queue additions (the
cascaded dependent-clearing edits it triggers each count as further edits
and likewise queue exactly one operation each).  If any precondition
fails, neither the queue nor the local store is modified by the
collaborative path. -/
theorem collaborative_edit_optimistic_queue :
    (∀ (P : Type) (ctx : CollabCtx) (uid : Nat)
        (userId operation target : String) (payload : P),
      (ctx.isApplyingRemoteChange = false → ctx.isShowingDiff = false →
        isInActiveRoom ctx = true →
        executeQueuedOperation ctx uid userId operation target payload =
          ([⟨uid, operation, target, payload, ctx.activeWorkflowId.getD "",
              userId, false⟩], true)) ∧
      (ctx.isApplyingRemoteChange = true ∨ ctx.isShowingDiff = true ∨
          isInActiveRoom ctx = false →
        executeQueuedOperation ctx uid userId operation target payload =
          ([], false))) ∧
    (∀ (ctx : CollabCtx) (userId : String) (cfg : List SubBlockCfg)
        (blockId sb v : String) (ctr : Nat),
      (ctx.isApplyingRemoteChange = false → ctx.isShowingDiff = false →
        isInActiveRoom ctx = true →
        OpsSpec (collaborativeSetSubblockValue ctx userId cfg blockId sb v ctr)
          ctr ∧
        ∃ t, (collaborativeSetSubblockValue ctx userId cfg blockId sb v ctr).ops =
          (⟨ctr, "subblock-update", "subblock", (blockId, sb, v),
            ctx.activeWorkflowId.getD "", userId, false⟩ : SubQueuedOp) :: t) ∧
      (ctx.isApplyingRemoteChange = true ∨ ctx.isShowingDiff = true ∨
          isInActiveRoom ctx = false →
        collaborativeSetSubblockValue ctx userId cfg blockId sb v ctr =
          ⟨[], [], ctr, []⟩)) := by
  constructor
  · intro P ctx uid userId operation target payload
    constructor
    · intro hflag hdiff hroom
      simp [executeQueuedOperation, hflag, hdiff, hroom]
    · intro h
      rcases h with h | h | h
      · simp [executeQueuedOperation, h]
      · cases hf : ctx.isApplyingRemoteChange <;>
          simp [executeQueuedOperation, h, hf]
      · cases hf : ctx.isApplyingRemoteChange <;>
          cases hd : ctx.isShowingDiff <;>
          simp [executeQueuedOperation, h, hf, hd]
  · intro ctx userId cfg blockId sb v ctr
    constructor
    · intro hflag hdiff hroom
      exact ⟨setSub_ops_spec ctx userId cfg blockId hflag hdiff hroom _ sb v [] ctr,
        setSubAux_ops_head ctx userId cfg blockId hflag hdiff hroom _ sb v [] ctr⟩
    · intro h
      rcases h with h | h | h
      · rw [collaborativeSetSubblockValue, setSubAux]
        simp [h]
      · cases hf : ctx.isApplyingRemoteChange <;>
          (rw [collaborativeSetSubblockValue, setSubAux]; simp [h, hf])
      · cases hf : ctx.isApplyingRemoteChange <;>
          cases hd : ctx.isShowingDiff <;>
          (rw [collaborativeSetSubblockValue, setSubAux]; simp [h, hf, hd])

/-- Active-room context used by the witnesses. -/
def ctxOk : CollabCtx := ⟨false, false, some "w", some "w"⟩

/-- Witness for `collaborative_edit_optimistic_queue` at concrete inputs. -/
theorem collaborative_edit_optimistic_queue_witness :
    executeQueuedOperation ctxOk 7 "user" "add" "block" (0 : Nat) =
      ([⟨7, "add", "block", (0 : Nat), ctxOk.activeWorkflowId.getD "", "user",
          false⟩], true) ∧
    OpsSpec (collaborativeSetSubblockValue ctxOk "user"
      [⟨"dep", ["sb"]⟩] "b" "sb" "x" 0) 0 :=
  ⟨(collaborative_edit_optimistic_queue.1 Nat ctxOk 7 "user" "add" "block"
      0).1 rfl rfl (by decide),
    ((collaborative_edit_optimistic_queue.2 ctxOk "user" [⟨"dep", ["sb"]⟩]
      "b" "sb" "x" 0).1 rfl rfl (by decide)).1⟩

/-- The ids of a block configuration's sub-blocks, as a finite set. -/
def cfgIds (cfg : List SubBlockCfg) : Finset String :=
  (cfg.map SubBlockCfg.id).toFinset

/-- Number of ids the cascade of `collaborativeSetSubblockValue` can still
insert into `_visited`: the ids among `subblockId` and the configured
sub-block ids that are not yet visited.  This strictly decreases at every
recursive cascade step, which is why the recursion terminates and why the
fuel supplied by the entry point is sufficient. -/
def freshMeasure (cfg : List SubBlockCfg) (sb : String)
    (visited : List String) : Nat :=
  ((insert sb (cfgIds cfg)).filter (fun x => x ∉ visited)).card

lemma freshMeasure_antitone (cfg : List SubBlockCfg) (x : String)
    (visited visited' : List String) (h : ∀ y ∈ visited, y ∈ visited') :
    freshMeasure cfg x visited' ≤ freshMeasure cfg x visited := by
  apply Finset.card_le_card
  intro y hy
  simp only [Finset.mem_filter] at hy ⊢
  exact ⟨hy.1, fun hc => hy.2 (h y hc)⟩

lemma freshMeasure_pos (cfg : List SubBlockCfg) (sb : String)
    (visited : List String) (h : sb ∉ visited) :
    1 ≤ freshMeasure cfg sb visited := by
  unfold freshMeasure
  rw [Nat.succ_le, Finset.card_pos]
  exact ⟨sb, by simp [h]⟩

lemma freshMeasure_drop (cfg : List SubBlockCfg) (sb : String)
    (visited v' : List String) (d : String) (hd : d ∈ cfgIds cfg)
    (hsb : sb ∉ visited) (hsub : ∀ y ∈ sb :: visited, y ∈ v') :
    freshMeasure cfg d v' + 1 ≤ freshMeasure cfg sb visited := by
  have hsbA : sb ∈ (insert sb (cfgIds cfg)).filter (fun x => x ∉ visited) := by
    simp [hsb]
  have hsubset : (insert d (cfgIds cfg)).filter (fun x => x ∉ v') ⊆
      ((insert sb (cfgIds cfg)).filter (fun x => x ∉ visited)).erase sb := by
    intro y hy
    simp only [Finset.mem_filter, Finset.mem_insert, Finset.mem_erase] at hy ⊢
    have hyIds : y ∈ cfgIds cfg := by
      rcases hy.1 with rfl | hYI
      · exact hd
      · exact hYI
    have hysb : y ≠ sb := fun he => hy.2 (hsub y (he ▸ List.mem_cons_self sb visited))
    exact ⟨hysb, Or.inr hyIds, fun hc => hy.2 (hsub y (List.mem_cons_of_mem _ hc))⟩
  have h1 := Finset.card_le_card hsubset
  rw [Finset.card_erase_of_mem hsbA] at h1
  have h2 := freshMeasure_pos cfg sb visited hsb
  unfold freshMeasure at h2 ⊢
  omega

lemma setSubAux_visited_grow (ctx : CollabCtx) (userId : String)
    (cfg : List SubBlockCfg) (blockId : String) :
    ∀ (fuel : Nat) (sb v : String) (visited : List String) (ctr : Nat)
      (x : String), x ∈ visited →
      x ∈ (setSubAux ctx userId cfg blockId fuel sb v visited ctr).visited := by
  intro fuel
  induction fuel with
  | zero =>
      intro sb v visited ctr x hx
      rw [setSubAux]
      split_ifs <;> first
        | exact hx
        | exact List.mem_cons_of_mem _ hx
  | succ f ih =>
      have hfold : ∀ (deps : List SubBlockCfg) (acc : SubEffects) (x : String),
          x ∈ acc.visited →
          x ∈ (deps.foldl
            (fun acc d =>
              let r := setSubAux ctx userId cfg blockId f d.id "" acc.visited
                acc.ctr
              (⟨acc.ops ++ r.ops, acc.writes ++ r.writes, r.ctr, r.visited⟩ :
                SubEffects))
            acc).visited := by
        intro deps
        induction deps with
        | nil => intro acc x hx; simpa using hx
        | cons d rest ihd =>
            intro acc x hx
            simp only [List.foldl_cons]
            exact ihd _ x (ih d.id "" acc.visited acc.ctr x hx)
      intro sb v visited ctr x hx
      rw [setSubAux]
      split_ifs <;> first
        | exact hx
        | exact List.mem_cons_of_mem _ hx
        | exact hfold _ _ x (List.mem_cons_of_mem _ hx)

lemma setSubAux_stab (ctx : CollabCtx) (userId : String)
    (cfg : List SubBlockCfg) (blockId : String) :
    ∀ (f : Nat) (sb v : String) (visited : List String) (ctr : Nat),
      freshMeasure cfg sb visited ≤ f →
      setSubAux ctx userId cfg blockId (f + 1) sb v visited ctr =
        setSubAux ctx userId cfg blockId f sb v visited ctr := by
  intro f
  induction f with
  | zero =>
      intro sb v visited ctr hm
      rw [setSubAux, setSubAux]
      split_ifs with h1 h2 h3 h4 <;> try rfl
      exfalso
      have hsb : sb ∉ visited := by
        intro hmem
        exact h4 (by simpa using hmem)
      have := freshMeasure_pos cfg sb visited hsb
      omega
  | succ f ih =>
      intro sb v visited ctr hm
      rw [setSubAux, setSubAux]
      split_ifs with h1 h2 h3 h4 <;> try rfl
      have hsb : sb ∉ visited := by
        intro hmem
        exact h4 (by simpa using hmem)
      have hfold : ∀ (deps : List SubBlockCfg) (acc : SubEffects),
          (∀ d ∈ deps, d.id ∈ cfgIds cfg) →
          (∀ d ∈ deps, freshMeasure cfg d.id acc.visited ≤ f) →
          (deps.foldl
            (fun acc d =>
              let r := setSubAux ctx userId cfg blockId (f + 1) d.id ""
                acc.visited acc.ctr
              (⟨acc.ops ++ r.ops, acc.writes ++ r.writes, r.ctr, r.visited⟩ :
                SubEffects)) acc) =
          (deps.foldl
            (fun acc d =>
              let r := setSubAux ctx userId cfg blockId f d.id ""
                acc.visited acc.ctr
              (⟨acc.ops ++ r.ops, acc.writes ++ r.writes, r.ctr, r.visited⟩ :
                SubEffects)) acc) := by
        intro deps
        induction deps with
        | nil => intro acc _ _; rfl
        | cons d rest ihd =>
            intro acc hids hms
            simp only [List.foldl_cons]
            rw [ih d.id "" acc.visited acc.ctr (hms d (List.mem_cons_self d rest))]
            apply ihd
            · intro d' hd'
              exact hids d' (List.mem_cons_of_mem _ hd')
            · intro d' hd'
              refine le_trans (freshMeasure_antitone cfg d'.id acc.visited _ ?_)
                (hms d' (List.mem_cons_of_mem _ hd'))
              intro y hy
              exact setSubAux_visited_grow ctx userId cfg blockId f d.id ""
                acc.visited acc.ctr y hy
      apply hfold
      · intro d hd
        simp only [List.mem_filter] at hd
        simp only [cfgIds, List.mem_toFinset, List.mem_map]
        exact ⟨d, hd.1, rfl⟩
      · intro d hd
        have hdid : d.id ∈ cfgIds cfg := by
          simp only [List.mem_filter] at hd
          simp only [cfgIds, List.mem_toFinset, List.mem_map]
          exact ⟨d, hd.1, rfl⟩
        have hdrop := freshMeasure_drop cfg sb visited (sb :: visited) d.id hdid
          hsb (fun y hy => hy)
        have hgoal : freshMeasure cfg d.id (sb :: visited) ≤ f := by omega
        exact hgoal

lemma setSubAux_fuel_ge (ctx : CollabCtx) (userId : String)
    (cfg : List SubBlockCfg) (blockId : String) (sb v : String)
    (visited : List String) (ctr : Nat) (f : Nat)
    (hm : freshMeasure cfg sb visited ≤ f) :
    ∀ g, f ≤ g →
      setSubAux ctx userId cfg blockId g sb v visited ctr =
        setSubAux ctx userId cfg blockId f sb v visited ctr := by
  intro g
  induction g with
  | zero =>
      intro hg
      have : f = 0 := Nat.le_zero.mp hg
      rw [this]
  | succ g' ih =>
      intro hg
      rcases Nat.lt_or_ge f (g' + 1) with hlt | hge
      · have hfg : f ≤ g' := Nat.lt_succ_iff.mp hlt
        rw [setSubAux_stab ctx userId cfg blockId g' sb v visited ctr
          (le_trans hm hfg)]
        exact ih hfg
      · have : f = g' + 1 := Nat.le_antisymm hg hge
        rw [this]

/-- The fuel supplied by the entry point `collaborativeSetSubblockValue` is
sufficient: with a fresh `_visited` set, every fuel of at least
`cfg.length + 1` yields the same result, so the bounded model computes the
behaviour of the unbounded JavaScript recursion. -/
theorem setSub_fuel_sufficient (ctx : CollabCtx) (userId : String)
    (cfg : List SubBlockCfg) (blockId sb v : String) (ctr : Nat)
    (fuel : Nat) (h : cfg.length + 1 ≤ fuel) :
    setSubAux ctx userId cfg blockId fuel sb v [] ctr =
      collaborativeSetSubblockValue ctx userId cfg blockId sb v ctr := by
  have hm : freshMeasure cfg sb [] ≤ cfg.length + 1 := by
    unfold freshMeasure
    calc ((insert sb (cfgIds cfg)).filter (fun x => x ∉ ([] : List String))).card
        ≤ (insert sb (cfgIds cfg)).card := Finset.card_filter_le _ _
      _ ≤ (cfgIds cfg).card + 1 := Finset.card_insert_le _ _
      _ ≤ cfg.length + 1 := by
          have := List.toFinset_card_le (cfg.map SubBlockCfg.id)
          simp only [List.length_map] at this
          unfold cfgIds
          omega
  rw [collaborativeSetSubblockValue]
  rw [setSubAux_fuel_ge ctx userId cfg blockId sb v [] ctr (cfg.length + 1) hm
    fuel h]
  rw [setSubAux_fuel_ge ctx userId cfg blockId sb v [] ctr (cfg.length + 1) hm
    (cfg.length + 2) (by omega)]

lemma aget_eq_none_iff {α : Type} (m : List (String × α)) (k : String) :
    aget m k = none ↔ k ∉ m.map Prod.fst := by
  induction m with
  | nil => simp [aget]
  | cons p rest ih =>
      by_cases h : p.1 = k
      · simp [aget, h]
      · simp [aget, h, ih, Ne.symm h]

lemma aset_keys_mem {α : Type} (m : List (String × α)) (k : String) (v : α)
    (h : k ∈ m.map Prod.fst) :
    (aset m k v).map Prod.fst = m.map Prod.fst := by
  induction m with
  | nil => simp at h
  | cons p rest ih =>
      by_cases hp : p.1 = k
      · simp [aset, hp]
      · simp only [List.map_cons, List.mem_cons] at h
        rcases h with h | h
        · exact absurd h.symm hp
        · simp [aset, hp, ih h]

lemma aset_keys_not_mem {α : Type} (m : List (String × α)) (k : String) (v : α)
    (h : k ∉ m.map Prod.fst) :
    (aset m k v).map Prod.fst = m.map Prod.fst ++ [k] := by
  induction m with
  | nil => simp [aset]
  | cons p rest ih =>
      simp only [List.map_cons, List.mem_cons, not_or] at h
      simp [aset, Ne.symm h.1, ih h.2]

lemma aget_append {α : Type} (a b : List (String × α)) (k : String) :
    aget (a ++ b) k = (aget a k).orElse (fun _ => aget b k) := by
  induction a with
  | nil => simp [aget]
  | cons p rest ih =>
      by_cases h : p.1 = k
      · simp [aget, h]
      · simp [aget, h, ih]

/-- Airtable change type, as in the `AirtableChange` interface (utils.ts
lines 1276-1282). -/
inductive ChangeType
  | created
  | updated
deriving DecidableEq

/-- The `AirtableChange` interface (utils.ts lines 1276-1282); field maps
(`cellValuesByFieldId`) are association lists from field id to value. -/
structure AirtableChange (V : Type) where
  tableId : String
  recordId : String
  changeType : ChangeType
  changedFields : List (String × V)
  previousFields : Option (List (String × V))
deriving DecidableEq

/-- One record-level entry of a fetched Airtable payload, in the order the
consolidation loop of `fetchAndProcessAirtablePayloads` visits them
(utils.ts lines 1031-1121): an entry of `createdRecordsById` carries
`cellValuesByFieldId || {}`; an entry of `changedRecordsById` carries
`current?.cellValuesByFieldId || {}` and the optional
`previous?.cellValuesByFieldId`. -/
inductive AirtableEvent (V : Type)
  | createdRec (tableId recordId : String) (fields : List (String × V))
  | changedRec (tableId recordId : String) (current : List (String × V))
      (previous : Option (List (String × V)))
deriving DecidableEq

/-- JavaScript object spread `{...a, ...b}` under lookup semantics: a key
found in `b` wins, otherwise `a` is consulted (`aget (jsSpread a b) k =
(aget b k).orElse (aget a k)`). -/
def jsSpread {V : Type} (a b : List (String × V)) : List (String × V) := b ++ a

/-- Embedding of one step of the consolidation loop
(`consolidatedChangesMap`, utils.ts lines 1044-1117): a created record
merges into an existing entry's `changedFields` keeping its change type, or
creates a `created` entry; a changed record merges `current` fields into an
existing entry — overriding earlier values and forcing the type to
`updated`, never touching `previousFields` — or creates an `updated` entry
whose `previousFields` are captured from this first entry. -/
def applyAirtableEvent {V : Type} (m : List (String × AirtableChange V)) :
    AirtableEvent V → List (String × AirtableChange V)
  | .createdRec tid rid fs =>
      match aget m rid with
      | some ex =>
          aset m rid { ex with changedFields := jsSpread ex.changedFields fs }
      | none => aset m rid ⟨tid, rid, ChangeType.created, fs, none⟩
  | .changedRec tid rid cur prev =>
      match aget m rid with
      | some ex =>
          aset m rid { ex with
            changedFields := jsSpread ex.changedFields cur,
            changeType := ChangeType.updated }
      | none => aset m rid ⟨tid, rid, ChangeType.updated, cur, prev⟩

/-- The consolidated-changes map after processing all record entries of all
fetched payloads, in order. -/
def consolidate {V : Type} (es : List (AirtableEvent V)) :
    List (String × AirtableChange V) :=
  es.foldl applyAirtableEvent []

/-- The record id an event is about. -/
def eventRecId {V : Type} : AirtableEvent V → String
  | .createdRec _ r _ => r
  | .changedRec _ r _ _ => r

/-- Whether an event is a `changedRecordsById` entry for the given record. -/
def isChangedFor {V : Type} (rid : String) : AirtableEvent V → Bool
  | .changedRec _ r _ _ => r == rid
  | .createdRec _ _ _ => false

/-- The value an event assigns to field `k` of record `rid`, if any. -/
def eventFieldVal {V : Type} (rid k : String) : AirtableEvent V → Option V
  | .createdRec _ r fs => if r = rid then aget fs k else none
  | .changedRec _ r cur _ => if r = rid then aget cur k else none

/-- The latest value assigned to field `k` of record `rid` across a list of
events (later events override earlier ones). -/
def lastWrite {V : Type} (es : List (AirtableEvent V)) (rid k : String) :
    Option V :=
  es.foldl
    (fun acc e =>
      match eventFieldVal rid k e with
      | some v => some v
      | none => acc)
    none

/-- Whether any event concerns record `rid`. -/
def hasEventFor {V : Type} (es : List (AirtableEvent V)) (rid : String) : Bool :=
  es.any (fun e => eventRecId e == rid)

/-- The `previousFields` the code captures for a record: those of the first
event for the record when that event is a `changedRecordsById` entry, and
nothing otherwise. -/
def firstPrev {V : Type} (es : List (AirtableEvent V)) (rid : String) :
    Option (List (String × V)) :=
  match es.find? (fun e => eventRecId e == rid) with
  | some (.changedRec _ _ _ prev) => prev
  | _ => none

/-- Invariant relating the consolidated map to the list of already processed
events. -/
def ConsolidationInv {V : Type} (es : List (AirtableEvent V))
    (m : List (String × AirtableChange V)) : Prop :=
  (m.map Prod.fst).Nodup ∧
  (∀ rid, aget m rid = none ↔ hasEventFor es rid = false) ∧
  (∀ (rid : String) (c : AirtableChange V), aget m rid = some c →
    c.recordId = rid ∧
    (c.changeType = ChangeType.updated ↔ es.any (isChangedFor rid) = true) ∧
    (∀ k, aget c.changedFields k = lastWrite es rid k) ∧
    c.previousFields = firstPrev es rid)

lemma hasEventFor_snoc {V : Type} (pre : List (AirtableEvent V))
    (e : AirtableEvent V) (rid : String) :
    hasEventFor (pre ++ [e]) rid =
      (hasEventFor pre rid || (eventRecId e == rid)) := by
  simp [hasEventFor, List.any_append]

lemma anyChanged_snoc {V : Type} (pre : List (AirtableEvent V))
    (e : AirtableEvent V) (rid : String) :
    (pre ++ [e]).any (isChangedFor rid) =
      (pre.any (isChangedFor rid) || isChangedFor rid e) := by
  simp [List.any_append]

lemma lastWrite_snoc {V : Type} (pre : List (AirtableEvent V))
    (e : AirtableEvent V) (rid k : String) :
    lastWrite (pre ++ [e]) rid k =
      match eventFieldVal rid k e with
      | some v => some v
      | none => lastWrite pre rid k := by
  simp [lastWrite, List.foldl_append]

lemma eventFieldVal_not_for {V : Type} (e : AirtableEvent V) (rid k : String)
    (h : (eventRecId e == rid) = false) : eventFieldVal rid k e = none := by
  cases e with
  | createdRec t r fs =>
      simp only [eventRecId, beq_eq_false_iff_ne, ne_eq] at h
      simp [eventFieldVal, h]
  | changedRec t r cur prev =>
      simp only [eventRecId, beq_eq_false_iff_ne, ne_eq] at h
      simp [eventFieldVal, h]

lemma isChangedFor_imp_event {V : Type} (e : AirtableEvent V) (rid : String)
    (h : isChangedFor rid e = true) : (eventRecId e == rid) = true := by
  cases e with
  | createdRec t r fs => simp [isChangedFor] at h
  | changedRec t r cur prev => simpa [isChangedFor, eventRecId] using h

lemma anyChanged_of_no_event {V : Type} (pre : List (AirtableEvent V))
    (rid : String) (h : hasEventFor pre rid = false) :
    pre.any (isChangedFor rid) = false := by
  rw [List.any_eq_false]
  intro e he hc
  have := isChangedFor_imp_event e rid hc
  rw [hasEventFor, List.any_eq_false] at h
  exact h e he (by simpa using this)

lemma lastWrite_of_no_event {V : Type} (pre : List (AirtableEvent V))
    (rid k : String) (h : hasEventFor pre rid = false) :
    lastWrite pre rid k = none := by
  rw [hasEventFor, List.any_eq_false] at h
  have hgen : ∀ (acc : Option V),
      pre.foldl
        (fun acc e =>
          match eventFieldVal rid k e with
          | some v => some v
          | none => acc) acc = acc := by
    induction pre with
    | nil => intro acc; rfl
    | cons x rest ih =>
        intro acc
        have hx : eventFieldVal rid k x = none := by
          apply eventFieldVal_not_for
          by_cases hb : (eventRecId x == rid) = true
          · exact absurd hb (h x (List.mem_cons_self x rest))
          · simpa using hb
        simp only [List.foldl_cons, hx]
        exact ih (fun e he => h e (List.mem_cons_of_mem _ he)) acc
  exact hgen none

lemma find?_of_no_event {V : Type} (pre : List (AirtableEvent V))
    (rid : String) (h : hasEventFor pre rid = false) :
    pre.find? (fun e => eventRecId e == rid) = none := by
  rw [List.find?_eq_none]
  rw [hasEventFor, List.any_eq_false] at h
  exact h

lemma firstPrev_snoc_found {V : Type} (pre : List (AirtableEvent V))
    (e : AirtableEvent V) (rid : String) (h : hasEventFor pre rid = true) :
    firstPrev (pre ++ [e]) rid = firstPrev pre rid := by
  unfold firstPrev
  rw [List.find?_append]
  obtain ⟨x, hx⟩ : ∃ x, pre.find? (fun e => eventRecId e == rid) = some x := by
    rw [hasEventFor, List.any_eq_true] at h
    obtain ⟨y, hy, hby⟩ := h
    exact List.find?_isSome.mpr ⟨y, hy, hby⟩ |> Option.isSome_iff_exists.mp
  rw [hx]
  rfl

lemma firstPrev_snoc_not {V : Type} (pre : List (AirtableEvent V))
    (e : AirtableEvent V) (rid : String) (h : hasEventFor pre rid = false) :
    firstPrev (pre ++ [e]) rid = firstPrev [e] rid := by
  unfold firstPrev
  rw [List.find?_append, find?_of_no_event pre rid h]
  rfl

lemma aget_of_some_mem {α : Type} (m : List (String × α)) (k : String) (c : α)
    (h : aget m k = some c) : k ∈ m.map Prod.fst := by
  by_contra hmem
  rw [← aget_eq_none_iff m k] at hmem
  rw [h] at hmem
  exact Option.noConfusion hmem

lemma orElse_eq_match {V : Type} (o o' : Option V) :
    (o.orElse (fun _ => o')) = (match o with | some v => some v | none => o') := by
  cases o <;> rfl

lemma consolidation_step {V : Type} (pre : List (AirtableEvent V))
    (m : List (String × AirtableChange V)) (e : AirtableEvent V)
    (h : ConsolidationInv pre m) :
    ConsolidationInv (pre ++ [e]) (applyAirtableEvent m e) := by
  obtain ⟨hnodup, hnone, hsome⟩ := h
  have hkeyfacts : ∀ (r : String) (newc : AirtableChange V),
      (((aset m r newc).map Prod.fst).Nodup) := by
    intro r newc
    by_cases hmem : r ∈ m.map Prod.fst
    · rw [aset_keys_mem m r newc hmem]; exact hnodup
    · rw [aset_keys_not_mem m r newc hmem]
      rw [List.nodup_append]
      refine ⟨hnodup, List.nodup_singleton r, ?_⟩
      intro a ha hb
      simp only [List.mem_singleton] at hb
      subst hb
      exact hmem ha
  -- facts shared by all four cases, for records other than the event's
  have hother : ∀ (r : String) (newc : AirtableChange V),
      eventRecId e = r →
      (∀ rid, rid ≠ r →
        (aget (aset m r newc) rid = none ↔
          hasEventFor (pre ++ [e]) rid = false) ∧
        (∀ c, aget (aset m r newc) rid = some c →
          c.recordId = rid ∧
          (c.changeType = ChangeType.updated ↔
            (pre ++ [e]).any (isChangedFor rid) = true) ∧
          (∀ k, aget c.changedFields k = lastWrite (pre ++ [e]) rid k) ∧
          c.previousFields = firstPrev (pre ++ [e]) rid)) := by
    intro r newc hrec rid hne
    have hb : (eventRecId e == rid) = false := by
      simp [hrec, Ne.symm hne]
    have hagm : aget (aset m r newc) rid = aget m rid :=
      aget_aset_other m r rid newc (Ne.symm hne)
    constructor
    · rw [hagm, hasEventFor_snoc, hb, Bool.or_false]
      exact hnone rid
    · intro c hc
      rw [hagm] at hc
      obtain ⟨h1, h2, h3, h4⟩ := hsome rid c hc
      have hchg : isChangedFor rid e = false := by
        by_cases hcc : isChangedFor rid e = true
        · exact absurd (isChangedFor_imp_event e rid hcc) (by simp [hb])
        · simpa using hcc
      have hev : hasEventFor pre rid = true := by
        by_cases ht : hasEventFor pre rid = true
        · exact ht
        · exfalso
          have := (hnone rid).mpr (by simpa using ht)
          rw [hc] at this
          exact Option.noConfusion this
      refine ⟨h1, ?_, ?_, ?_⟩
      · rw [anyChanged_snoc, hchg, Bool.or_false]
        exact h2
      · intro k
        rw [lastWrite_snoc, eventFieldVal_not_for e rid k hb]
        exact h3 k
      · rw [firstPrev_snoc_found pre e rid hev]
        exact h4
  cases e with
  | createdRec tid r fs =>
      cases haget : aget m r with
      | some ex =>
          obtain ⟨hx1, hx2, hx3, hx4⟩ := hsome r ex haget
          have hev : hasEventFor pre r = true := by
            by_cases ht : hasEventFor pre r = true
            · exact ht
            · exfalso
              have := (hnone r).mpr (by simpa using ht)
              rw [haget] at this
              exact Option.noConfusion this
          simp only [applyAirtableEvent, haget]
          refine ⟨hkeyfacts r _, ?_, ?_⟩
          · intro rid
            by_cases hne : rid = r
            · subst hne
              rw [aget_aset_self]
              simp [hasEventFor_snoc, eventRecId]
            · exact (hother r _ rfl rid hne).1
          · intro rid c hc
            by_cases hne : rid = r
            · subst hne
              rw [aget_aset_self] at hc
              injection hc with hc
              subst hc
              refine ⟨hx1, ?_, ?_, ?_⟩
              · rw [anyChanged_snoc]
                simp only [isChangedFor, Bool.or_false]
                exact hx2
              · intro k
                have hef : eventFieldVal rid k
                    (AirtableEvent.createdRec tid rid fs) = aget fs k := by
                  simp [eventFieldVal]
                rw [lastWrite_snoc, hef]
                show aget (jsSpread ex.changedFields fs) k =
                  (match aget fs k with
                   | some v => some v
                   | none => lastWrite pre rid k)
                rw [jsSpread, aget_append, orElse_eq_match]
                cases hfk : aget fs k with
                | some v => rfl
                | none => exact hx3 k
              · rw [firstPrev_snoc_found pre _ rid hev]
                exact hx4
            · exact (hother r _ rfl rid hne).2 c hc
      | none =>
          have hev : hasEventFor pre r = false := (hnone r).mp haget
          simp only [applyAirtableEvent, haget]
          refine ⟨hkeyfacts r _, ?_, ?_⟩
          · intro rid
            by_cases hne : rid = r
            · subst hne
              rw [aget_aset_self]
              simp [hasEventFor_snoc, eventRecId]
            · exact (hother r _ rfl rid hne).1
          · intro rid c hc
            by_cases hne : rid = r
            · subst hne
              rw [aget_aset_self] at hc
              injection hc with hc
              subst hc
              refine ⟨rfl, ?_, ?_, ?_⟩
              · rw [anyChanged_snoc]
                simp only [isChangedFor, Bool.or_false]
                simp [anyChanged_of_no_event pre rid hev]
              · intro k
                have hef : eventFieldVal rid k
                    (AirtableEvent.createdRec tid rid fs) = aget fs k := by
                  simp [eventFieldVal]
                rw [lastWrite_snoc, hef]
                show aget fs k =
                  (match aget fs k with
                   | some v => some v
                   | none => lastWrite pre rid k)
                cases hfk : aget fs k with
                | some v => rfl
                | none => rw [lastWrite_of_no_event pre rid k hev]
              · rw [firstPrev_snoc_not pre _ rid hev]
                simp [firstPrev, List.find?, eventRecId]
            · exact (hother r _ rfl rid hne).2 c hc
  | changedRec tid r cur prev =>
      cases haget : aget m r with
      | some ex =>
          obtain ⟨hx1, hx2, hx3, hx4⟩ := hsome r ex haget
          have hev : hasEventFor pre r = true := by
            by_cases ht : hasEventFor pre r = true
            · exact ht
            · exfalso
              have := (hnone r).mpr (by simpa using ht)
              rw [haget] at this
              exact Option.noConfusion this
          simp only [applyAirtableEvent, haget]
          refine ⟨hkeyfacts r _, ?_, ?_⟩
          · intro rid
            by_cases hne : rid = r
            · subst hne
              rw [aget_aset_self]
              simp [hasEventFor_snoc, eventRecId]
            · exact (hother r _ rfl rid hne).1
          · intro rid c hc
            by_cases hne : rid = r
            · subst hne
              rw [aget_aset_self] at hc
              injection hc with hc
              subst hc
              refine ⟨hx1, ?_, ?_, ?_⟩
              · rw [anyChanged_snoc]
                simp [isChangedFor]
              · intro k
                have hef : eventFieldVal rid k
                    (AirtableEvent.changedRec tid rid cur prev) = aget cur k := by
                  simp [eventFieldVal]
                rw [lastWrite_snoc, hef]
                show aget (jsSpread ex.changedFields cur) k =
                  (match aget cur k with
                   | some v => some v
                   | none => lastWrite pre rid k)
                rw [jsSpread, aget_append, orElse_eq_match]
                cases hfk : aget cur k with
                | some v => rfl
                | none => exact hx3 k
              · rw [firstPrev_snoc_found pre _ rid hev]
                exact hx4
            · exact (hother r _ rfl rid hne).2 c hc
      | none =>
          have hev : hasEventFor pre r = false := (hnone r).mp haget
          simp only [applyAirtableEvent, haget]
          refine ⟨hkeyfacts r _, ?_, ?_⟩
          · intro rid
            by_cases hne : rid = r
            · subst hne
              rw [aget_aset_self]
              simp [hasEventFor_snoc, eventRecId]
            · exact (hother r _ rfl rid hne).1
          · intro rid c hc
            by_cases hne : rid = r
            · subst hne
              rw [aget_aset_self] at hc
              injection hc with hc
              subst hc
              refine ⟨rfl, ?_, ?_, ?_⟩
              · rw [anyChanged_snoc]
                simp [isChangedFor]
              · intro k
                have hef : eventFieldVal rid k
                    (AirtableEvent.changedRec tid rid cur prev) = aget cur k := by
                  simp [eventFieldVal]
                rw [lastWrite_snoc, hef]
                show aget cur k =
                  (match aget cur k with
                   | some v => some v
                   | none => lastWrite pre rid k)
                cases hfk : aget cur k with
                | some v => rfl
                | none => rw [lastWrite_of_no_event pre rid k hev]
              · rw [firstPrev_snoc_not pre _ rid hev]
                simp [firstPrev, List.find?, eventRecId]
            · exact (hother r _ rfl rid hne).2 c hc

lemma consolidate_inv {V : Type} (es : List (AirtableEvent V)) :
    ConsolidationInv es (consolidate es) := by
  have hbase : ConsolidationInv ([] : List (AirtableEvent V)) [] := by
    refine ⟨List.nodup_nil, ?_, ?_⟩
    · intro rid
      simp [aget, hasEventFor]
    · intro rid c hc
      simp [aget] at hc
  have hgen : ∀ (es' pre : List (AirtableEvent V))
      (m : List (String × AirtableChange V)),
      ConsolidationInv pre m →
      ConsolidationInv (pre ++ es') (es'.foldl applyAirtableEvent m) := by
    intro es'
    induction es' with
    | nil =>
        intro pre m h
        simpa using h
    | cons e rest ih =>
        intro pre m h
        have h1 := consolidation_step pre m e h
        have h2 := ih (pre ++ [e]) _ h1
        simpa [List.append_assoc] using h2
  have h := hgen es [] [] hbase
  simpa [consolidate] using h

/-- C10: the consolidated-changes map of `fetchAndProcessAirtablePayloads`
contains at most one `AirtableChange` per record id (its keys are pairwise
distinct), and for every consolidated entry: successive field changes for
the same record are merged with later payload values overriding earlier
ones (each field holds the last value written by any event for that
record); the change type is `updated` exactly when some `changedRecordsById`
entry was seen for the record — in particular a record first seen as created
and later seen in `changedRecordsById` ends as `updated`; and
`previousFields` equals the `previous` snapshot of the record's first event
when that event is a `changedRecordsById` entry — captured once and never
overwritten afterwards — and is absent otherwise. -/
theorem airtable_consolidation_one_change_per_record {V : Type}
    (es : List (AirtableEvent V)) :
    ((consolidate es).map Prod.fst).Nodup ∧
    (∀ (rid : String) (c : AirtableChange V),
      aget (consolidate es) rid = some c →
      c.recordId = rid ∧
      (c.changeType = ChangeType.updated ↔ es.any (isChangedFor rid) = true) ∧
      (∀ k, aget c.changedFields k = lastWrite es rid k) ∧
      c.previousFields = firstPrev es rid) := by
  have h := consolidate_inv es
  exact ⟨h.1, h.2.2⟩

/-- A record created and then updated within the same batch, for the
witness. -/
def cexEvents : List (AirtableEvent Nat) :=
  [AirtableEvent.createdRec "t" "r" [("f", 1)],
    AirtableEvent.changedRec "t" "r" [("f", 2)] (some [("f", 0)])]

/-- Witness for `airtable_consolidation_one_change_per_record` at a concrete
batch: the created-then-changed record consolidates to a single entry whose
change type is `updated`, whose field `f` holds the later value `2`, and
whose `previousFields` were not captured (the first event was a creation). -/
theorem airtable_consolidation_one_change_per_record_witness :
    ((consolidate cexEvents).map Prod.fst).Nodup ∧
    ((⟨"t", "r", ChangeType.updated, [("f", 2), ("f", 1)], none⟩ :
        AirtableChange Nat).changeType = ChangeType.updated ↔
      cexEvents.any (isChangedFor "r") = true) ∧
    aget (⟨"t", "r", ChangeType.updated, [("f", 2), ("f", 1)], none⟩ :
        AirtableChange Nat).changedFields "f" = lastWrite cexEvents "r" "f" :=
  ⟨(airtable_consolidation_one_change_per_record cexEvents).1,
    ((airtable_consolidation_one_change_per_record cexEvents).2 "r" _
      rfl).2.1,
    ((airtable_consolidation_one_change_per_record cexEvents).2 "r" _
      rfl).2.2.1 "f"⟩

/-- JavaScript strings for the error-enhancement utility, as character
lists (ASCII in all relevant inputs). -/
abbrev Chars := List Char

/-- Whitespace for `trim` and the `\s` class (common ASCII whitespace). -/
def wspChar (c : Char) : Bool :=
  c = ' ' || c = '\t' || c = '\n' || c = '\r' || c = Char.ofNat 11 ||
    c = Char.ofNat 12

/-- JavaScript `s.split('\n')`: always at least one (possibly empty) line. -/
def splitNl : Chars → List Chars
  | [] => [[]]
  | c :: rest =>
      let r := splitNl rest
      if c = '\n' then [] :: r
      else
        match r with
        | g :: gs => (c :: g) :: gs
        | [] => [[c]]

/-- JavaScript `s.trim()`. -/
def trimChars (l : Chars) : Chars :=
  ((l.dropWhile wspChar).reverse.dropWhile wspChar).reverse

/-- Value of a run of decimal digits. -/
def digitsToNatC (l : Chars) : Nat :=
  l.foldl (fun a c => 10 * a + (c.toNat - 48)) 0

/-- Decimal representation of a number, as characters. -/
def natToChars (n : Nat) : Chars := Nat.toDigits 10 n

/-- Substring test (JavaScript `hay.includes(needle)`). -/
def containsSub : Chars → Chars → Bool
  | hay, needle =>
      match hay with
      | [] => needle.isEmpty
      | _ :: rest => needle.isPrefixOf hay || containsSub rest needle

/-- Attempt to match the regular expression
`user-function\.js:(\d+)(?::(\d+))?` exactly at the start of `l`, returning
the line number and optional column. -/
def frameAt (l : Chars) : Option (Nat × Option Nat) :=
  let pat := "user-function.js:".data
  if pat.isPrefixOf l then
    let rest := l.drop pat.length
    let ds := rest.takeWhile Char.isDigit
    if ds.isEmpty then none
    else
      let rest2 := rest.drop ds.length
      match rest2 with
      | ':' :: r3 =>
          let cs := r3.takeWhile Char.isDigit
          if cs.isEmpty then some (digitsToNatC ds, none)
          else some (digitsToNatC ds, some (digitsToNatC cs))
      | _ => some (digitsToNatC ds, none)
  else none

/-- Leftmost match of `user-function\.js:(\d+)(?::(\d+))?` in a string
(`String.prototype.match` without the global flag). -/
def frameMatch : Chars → Option (Nat × Option Nat)
  | [] => none
  | c :: rest =>
      match frameAt (c :: rest) with
      | some r => some r
      | none => frameMatch rest

/-- Outcome of the stack-scanning loop of `extractEnhancedError` when it
breaks at a frame: the reported line, optional column, and optional line
content. -/
structure FrameInfo where
  line : Nat
  column : Option Nat
  content : Option Chars
deriving DecidableEq

/-- JavaScript truthiness of an optional string (undefined and the empty
string are falsy). -/
def jsTruthyChars : Option Chars → Bool
  | none => false
  | some s => !s.isEmpty

/-- The error-classification part of the wrapper-syntax-error test of
`extractEnhancedError` (route.ts lines 68-72): a `SyntaxError` whose message
mentions `Unexpected token` or `Unexpected end of input`. -/
def wrapperSynCond (errName errMessage : Chars) : Bool :=
  (errName == "SyntaxError".data) &&
    (containsSub errMessage "Unexpected token".data ||
      containsSub errMessage "Unexpected end of input".data)

/-- Embedding of the stack-scanning loop of `extractEnhancedError` (route.ts
lines 45-105): take the first stack line matching the `user-function.js`
frame pattern; on the wrapper-syntax-error special case map to the last
line of the user code; otherwise, when the adjusted line
`L - userCodeStartLine + 1` is positive report it (with the trimmed user
code line when the user code is truthy and the line is in range), when
`L <= userCodeStartLine` report the wrapper line itself; in the (vacuous)
remaining case continue scanning. -/
def scanFrames (errName errMessage : Chars) (userCodeStartLine : Nat)
    (userCode : Option Chars) : List Chars → Option FrameInfo
  | [] => none
  | ln :: rest =>
      match frameMatch ln with
      | none => scanFrames errName errMessage userCodeStartLine userCode rest
      | some (L, C) =>
          if decide (userCodeStartLine < L) && wrapperSynCond errName errMessage
              && jsTruthyChars userCode then
            let codeLines := splitNl (userCode.getD [])
            let lastUserLine := codeLines.length
            some ⟨lastUserLine, some (codeLines.getD (lastUserLine - 1) []).length,
              some (trimChars (codeLines.getD (lastUserLine - 1) []))⟩
          else
            let adjusted : Int := (L : Int) - userCodeStartLine + 1
            if 0 < adjusted then
              let lineN := adjusted.toNat
              let content : Option Chars :=
                if jsTruthyChars userCode then
                  let codeLines := splitNl (userCode.getD [])
                  if lineN ≤ codeLines.length then
                    some (trimChars (codeLines.getD (lineN - 1) []))
                  else none
                else none
              some ⟨lineN, C, content⟩
            else if L ≤ userCodeStartLine then some ⟨L, C, none⟩
            else scanFrames errName errMessage userCodeStartLine userCode rest

/-- Replace the first occurrence of `\s+at\s+` by four spaces, `at`, one
space (the per-line cleanup of route.ts line 114). -/
def replaceWsAt : Chars → Chars
  | [] => []
  | c :: rest =>
      if wspChar c then
        let ws := (c :: rest).takeWhile wspChar
        let after := (c :: rest).drop ws.length
        match after with
        | 'a' :: 't' :: r2 =>
            let ws2 := r2.takeWhile wspChar
            if ws2.isEmpty then c :: replaceWsAt rest
            else "    at ".data ++ r2.drop ws2.length
        | _ => c :: replaceWsAt rest
      else c :: replaceWsAt rest

/-- The stack-cleanup filter of `extractEnhancedError` (route.ts lines
107-118): keep lines mentioning `user-function.js` or mentioning neither
`vm.js` nor `internal/`, then normalise the `at` indentation. -/
def cleanStackLines (lines : List Chars) : List Chars :=
  (lines.filter fun l =>
    containsSub l "user-function.js".data ||
      (!containsSub l "vm.js".data && !containsSub l "internal/".data)).map
    replaceWsAt

/-- Join lines with newlines (`Array.prototype.join('\n')`). -/
def joinNl : List Chars → Chars
  | [] => []
  | [l] => l
  | l :: rest => l ++ '\n' :: joinNl rest

/-- Enhanced error information (the `EnhancedError` interface of route.ts
lines 14-22, without the raw `originalError`). -/
structure EnhancedError where
  message : Chars
  name : Chars
  line : Option Nat
  column : Option Nat
  lineContent : Option Chars
  stack : Option Chars
deriving DecidableEq

/-- Embedding of `extractEnhancedError` (route.ts lines 27-125): default the
message and name (`error.message || 'Unknown error'`,
`error.name || 'Error'`), scan the stack for the first user-function frame,
and clean the stack trace for display. -/
def extractEnhancedError (errName errMessage : Chars) (stack : Option Chars)
    (userCodeStartLine : Nat) (userCode : Option Chars) : EnhancedError :=
  let msg := if errMessage.isEmpty then "Unknown error".data else errMessage
  let nm := if errName.isEmpty then "Error".data else errName
  match stack with
  | none => ⟨msg, nm, none, none, none, none⟩
  | some st =>
      let stackLines := splitNl st
      let fi := scanFrames errName errMessage userCodeStartLine userCode
        stackLines
      let cleaned := cleanStackLines stackLines
      { message := msg
        name := nm
        line := fi.map FrameInfo.line
        column := fi.bind FrameInfo.column
        lineContent := fi.bind FrameInfo.content
        stack := some (if 0 < cleaned.length then joinNl cleaned else st) }

/-- Lower-casing for the case-insensitive error-type-prefix test. -/
def toLowerChars (l : Chars) : Chars := l.map Char.toLower

/-- Embedding of `createUserFriendlyErrorMessage` (route.ts lines 130-213):
prepend `Line {line}[:{column}][: `{lineContent}`] - ` when a line is known
(falling back to a frame parsed from the cleaned stack otherwise, where a
zero column and an empty line content are falsy and omitted), then prepend
the humanised error-type prefix unless the message already contains it
case-insensitively, then append syntax-error hints. -/
def createUserFriendlyErrorMessage (enhanced : EnhancedError)
    (userCode : Option Chars) : Chars :=
  let m0 := enhanced.message
  let m1 :=
    match enhanced.line with
    | some l =>
        let lineInfo := "Line ".data ++ natToChars l ++
          (match enhanced.column with
           | some c => ':' :: natToChars c
           | none => []) ++
          (match enhanced.lineContent with
           | some lc => if lc.isEmpty then [] else ": `".data ++ lc ++ ['`']
           | none => [])
        lineInfo ++ " - ".data ++ m0
    | none =>
        match enhanced.stack with
        | some st =>
            match frameMatch st with
            | some (L, C) =>
                let colPart : Chars :=
                  match C with
                  | some c => if c = 0 then [] else ':' :: natToChars c
                  | none => []
                let base := "Line ".data ++ natToChars L ++ colPart
                let withContent :=
                  if jsTruthyChars userCode then
                    let codeLines := splitNl (userCode.getD [])
                    if L ≤ codeLines.length then
                      let lc := trimChars (codeLines.getD (L - 1) [])
                      if lc.isEmpty then base
                      else base ++ ": `".data ++ lc ++ ['`']
                    else base
                  else base
                withContent ++ " - ".data ++ m0
            | none => m0
        | none => m0
  let m2 :=
    if enhanced.name == "Error".data then m1
    else
      let typePre : Chars :=
        if enhanced.name == "SyntaxError".data then "Syntax Error".data
        else if enhanced.name == "TypeError".data then "Type Error".data
        else if enhanced.name == "ReferenceError".data then
          "Reference Error".data
        else enhanced.name
      if containsSub (toLowerChars m1) (toLowerChars typePre) then m1
      else typePre ++ ": ".data ++ m1
  if enhanced.name == "SyntaxError".data then
    if containsSub m2 "Invalid or unexpected token".data then
      m2 ++ " (Check for missing quotes, brackets, or semicolons)".data
    else if containsSub m2 "Unexpected end of input".data then
      m2 ++ " (Check for missing closing brackets or braces)".data
    else if containsSub m2 "Unexpected token".data then
      match enhanced.lineContent with
      | some lc =>
          if !lc.isEmpty &&
              ((lc.contains '(' && !lc.contains ')') ||
                (lc.contains '[' && !lc.contains ']') ||
                (lc.contains (Char.ofNat 123) && !lc.contains (Char.ofNat 125))) then
            m2 ++ " (Check for missing closing parentheses, brackets, or braces)".data
          else m2 ++ " (Check your syntax)".data
      | none => m2 ++ " (Check your syntax)".data
    else m2
  else m2

lemma scanFrames_skip (errName errMessage : Chars) (start : Nat)
    (uc : Option Chars) :
    ∀ (pre rest : List Chars), (∀ l ∈ pre, frameMatch l = none) →
      scanFrames errName errMessage start uc (pre ++ rest) =
        scanFrames errName errMessage start uc rest := by
  intro pre
  induction pre with
  | nil => intro rest _; rfl
  | cons l pls ih =>
      intro rest h
      rw [List.cons_append, scanFrames, h l (List.mem_cons_self l pls)]
      exact ih rest fun x hx => h x (List.mem_cons_of_mem _ hx)

lemma scanFrames_hit (errName errMessage : Chars) (start : Nat) (code : Chars)
    (hitLine : Chars) (restLines : List Chars) (L : Nat) (C : Option Nat)
    (hhit : frameMatch hitLine = some (L, C)) (hgt : start < L)
    (hwrap : wrapperSynCond errName errMessage = false) (hcode : code ≠ [])
    (hrange : L - start + 1 ≤ (splitNl code).length) :
    scanFrames errName errMessage start (some code) (hitLine :: restLines) =
      some ⟨L - start + 1, C,
        some (trimChars ((splitNl code).getD (L - start) []))⟩ := by
  rw [scanFrames, hhit]
  dsimp only
  rw [hwrap]
  simp only [Bool.and_false, Bool.false_and, Bool.false_eq_true, if_false]
  have hpos : (0 : Int) < (L : Int) - (start : Int) + 1 := by omega
  rw [if_pos hpos]
  have htruthy : jsTruthyChars (some code) = true := by
    simp [jsTruthyChars, hcode]
  rw [htruthy]
  simp only [if_true]
  have htn : ((L : Int) - (start : Int) + 1).toNat = L - start + 1 := by omega
  rw [htn]
  simp only [Option.getD_some]
  rw [if_pos hrange]
  simp only [Nat.add_sub_cancel]

/-- C9 (amended): for a VM error whose stack's first `user-function.js`
frame carries line `L > userCodeStartLine` (earlier stack lines matching no
frame), outside the wrapper-syntax-error special case, with the user code
available and the adjusted line within it, `extractEnhancedError` reports
line `L - userCodeStartLine + 1`, the frame's column, and the trimmed text
of that line of the user code; and when the error's name is `Error` — so
that no error-type prefix is prepended and no syntax-error hint is appended
— the user-facing message is exactly
`Line {line}[:{column}]: `{lineContent}` - ` followed by the original
message.  (For other error names, e.g. `TypeError`, the same line
information is reported but the message starts with the humanised
error-type prefix instead.) -/
theorem error_line_mapping_characterization
    (errName errMessage : Chars) (userCodeStartLine : Nat) (code : Chars)
    (st : Chars) (preLines restLines : List Chars) (hitLine : Chars)
    (L : Nat) (C : Option Nat)
    (hsplit : splitNl st = preLines ++ hitLine :: restLines)
    (hpre : ∀ l ∈ preLines, frameMatch l = none)
    (hhit : frameMatch hitLine = some (L, C))
    (hgt : userCodeStartLine < L)
    (hwrap : wrapperSynCond errName errMessage = false)
    (hcode : code ≠ [])
    (hrange : L - userCodeStartLine + 1 ≤ (splitNl code).length) :
    (extractEnhancedError errName errMessage (some st) userCodeStartLine
        (some code)).line = some (L - userCodeStartLine + 1) ∧
    (extractEnhancedError errName errMessage (some st) userCodeStartLine
        (some code)).column = C ∧
    (extractEnhancedError errName errMessage (some st) userCodeStartLine
        (some code)).lineContent =
      some (trimChars ((splitNl code).getD (L - userCodeStartLine) [])) ∧
    (errName = "Error".data → errMessage ≠ [] →
      trimChars ((splitNl code).getD (L - userCodeStartLine) []) ≠ [] →
      createUserFriendlyErrorMessage
          (extractEnhancedError errName errMessage (some st) userCodeStartLine
            (some code)) (some code) =
        "Line ".data ++ natToChars (L - userCodeStartLine + 1) ++
          (match C with
           | some c => ':' :: natToChars c
           | none => []) ++
          ": `".data ++
          trimChars ((splitNl code).getD (L - userCodeStartLine) []) ++
          ['`'] ++ " - ".data ++ errMessage) := by
  have hscan : scanFrames errName errMessage userCodeStartLine (some code)
      (splitNl st) =
      some ⟨L - userCodeStartLine + 1, C,
        some (trimChars ((splitNl code).getD (L - userCodeStartLine) []))⟩ := by
    rw [hsplit, scanFrames_skip errName errMessage userCodeStartLine
      (some code) preLines (hitLine :: restLines) hpre]
    exact scanFrames_hit errName errMessage userCodeStartLine code hitLine
      restLines L C hhit hgt hwrap hcode hrange
  have hfields : (extractEnhancedError errName errMessage (some st)
        userCodeStartLine (some code)).line = some (L - userCodeStartLine + 1) ∧
      (extractEnhancedError errName errMessage (some st) userCodeStartLine
        (some code)).column = C ∧
      (extractEnhancedError errName errMessage (some st) userCodeStartLine
        (some code)).lineContent =
        some (trimChars ((splitNl code).getD (L - userCodeStartLine) [])) := by
    simp only [extractEnhancedError]
    rw [hscan]
    exact ⟨rfl, rfl, rfl⟩
  refine ⟨hfields.1, hfields.2.1, hfields.2.2, ?_⟩
  intro hname hmsg htrim
  have hmsgkeep : (extractEnhancedError errName errMessage (some st)
      userCodeStartLine (some code)).message = errMessage := by
    simp only [extractEnhancedError]
    rw [if_neg (by simpa [List.isEmpty_iff] using hmsg)]
  have hnm : (extractEnhancedError errName errMessage (some st)
      userCodeStartLine (some code)).name = "Error".data := by
    simp only [extractEnhancedError, hname]
    rfl
  unfold createUserFriendlyErrorMessage
  rw [hfields.1, hfields.2.1, hfields.2.2, hmsgkeep, hnm]
  have hbeq : ("Error".data == "Error".data) = true := by decide
  have hnsyn : ("Error".data == "SyntaxError".data) = false := by decide
  rw [hbeq, hnsyn]
  simp only [if_true, Bool.false_eq_true, if_false]
  rw [if_neg (by simpa [List.isEmpty_iff] using htrim)]
  cases C <;> simp [List.append_assoc]

/-- The enhanced error of a `TypeError` whose stack frame points at
user-function.js line 5, with `userCodeStartLine = 3` and four lines of
user code. -/
def cexEnhanced : EnhancedError :=
  extractEnhancedError "TypeError".data "boom".data
    (some "TypeError: boom\n    at user-function.js:5:3".data) 3
    (some "a\nb\nc\nd".data)

/-- C9 counterexample: line mapping works as claimed — line `5 - 3 + 1 = 3`,
line content `c` — but the user-facing message for this `TypeError` is
`Type Error: Line 3:3: \x60c\x60 - boom`: it begins with the error-type
prefix, not with `Line {line}...` as the claim states. -/
theorem error_message_claim_counterexample :
    cexEnhanced.line = some 3 ∧
    cexEnhanced.lineContent = some "c".data ∧
    createUserFriendlyErrorMessage cexEnhanced (some "a\nb\nc\nd".data) =
      "Type Error: Line 3:3: `c` - boom".data ∧
    ("Line".data).isPrefixOf
      (createUserFriendlyErrorMessage cexEnhanced
        (some "a\nb\nc\nd".data)) = false := by
  exact ⟨rfl, rfl, by decide, by decide⟩

/-- Witness for `error_line_mapping_characterization`: an `Error`-named
error with the first frame at line 5, start line 3 and three user code
lines. -/
theorem error_line_mapping_characterization_witness :
    (extractEnhancedError "Error".data "boom".data
        (some "oops\n    at user-function.js:5:2".data) 3
        (some "a\nb\n  c  ".data)).line = some 3 ∧
    createUserFriendlyErrorMessage
        (extractEnhancedError "Error".data "boom".data
          (some "oops\n    at user-function.js:5:2".data) 3
          (some "a\nb\n  c  ".data)) (some "a\nb\n  c  ".data) =
      "Line 3:2: `c` - boom".data := by
  have h := error_line_mapping_characterization "Error".data "boom".data 3
    "a\nb\n  c  ".data "oops\n    at user-function.js:5:2".data
    ["oops".data] [] "    at user-function.js:5:2".data 5 (some 2)
    (by decide)
    (by intro l hl; simp only [List.mem_singleton] at hl; subst hl; decide)
    (by decide) (by decide) (by decide) (by decide) (by decide)
  refine ⟨h.1, ?_⟩
  have h4 := h.2.2.2 rfl (by decide) (by decide)
  rw [h4]
  decide

/-- Witness for `slack_signature_characterization` at a concrete input: a
numeric in-window timestamp and a matching signature validate. -/
theorem slack_signature_characterization_witness :
    validateSlackSignature hmacHexStub 0 (cu "k") (cu "v0=ab") (cu "5")
      (cu "b") = true :=
  (slack_signature_characterization hmacHexStub 0 (cu "k") (cu "v0=ab")
    (cu "5") (cu "b")).mpr
    ⟨by decide, by decide, by decide, by decide, by decide, by decide⟩

/-- Witness for `airtable_poll_at_most_ten_fetches` at a concrete
environment that always reports more data. -/
theorem airtable_poll_at_most_ten_fetches_witness :
    (pollLoop cursorNoneEnv none none 0 0).fetchLog.length ≤ 10 :=
  airtable_poll_at_most_ten_fetches cursorNoneEnv none none

/-- Witness for `teams_signature_characterization` at a concrete input. -/
theorem teams_signature_characterization_witness :
    validateMicrosoftTeamsSignature hmacHexStub (cu "s") (cu "HMAC ab")
      (cu "b") = true :=
  (teams_signature_characterization hmacHexStub (cu "s") (cu "HMAC ab")
    (cu "b")).mpr ⟨by decide, by decide, by decide, by decide, by decide⟩

/-- Witness for `ctCompare_equiv_plain_equality` at a concrete input. -/
theorem ctCompare_equiv_plain_equality_witness :
    ctCompare (cu "abc") (cu "abc") = plainEqual (cu "abc") (cu "abc") :=
  ctCompare_equiv_plain_equality (cu "abc") (cu "abc")
